import Mathlib

/-!  Shallow embedding of the Bangladesh economic-data ETL pipeline
     (scripts/transform_data.py and scripts/load_to_warehouse.py).

     Numeric values are modelled as rationals (ℚ): every arithmetic step of the
     source (percent change, diversification index, least-squares slope) is a
     field computation, exact over ℚ.  A nullable pandas cell is `Option ℚ`.
     pandas produces non-finite floats (inf / NaN) when a percent change divides
     by zero; such values are outside the rational model and the embedding emits
     derived rows only where the change is finite, which is the only regime the
     specification speaks about.  -/

namespace BdEtl

/-- A raw observation row as read from the ingested CSV
    (columns `country_name, country_code, indicator_code, indicator_name, year, value`);
    `value` is nullable. -/
structure RawRow where
  country_name : String
  country_code : String
  indicator_code : String
  indicator_name : String
  year : Int
  value : Option ℚ
deriving DecidableEq

/-- An observation after the Clean phase: `value` is never null. -/
structure Row where
  country_name : String
  country_code : String
  indicator_code : String
  indicator_name : String
  year : Int
  value : ℚ
deriving DecidableEq

/-- Python `str.strip()`: drop leading and trailing whitespace.  (Defined by
    structural recursion over the character data so that concrete runs reduce;
    semantically the familiar two-sided trim.) -/
def strTrim (s : String) : String :=
  ⟨((s.data.dropWhile Char.isWhitespace).reverse.dropWhile Char.isWhitespace).reverse⟩

/-- ASCII upper-casing of one character, as Python `str.upper()` acts on the
    indicator names occurring here. -/
def charUpper (c : Char) : Char :=
  if 97 ≤ c.toNat && c.toNat ≤ 122 then Char.ofNat (c.toNat - 32) else c

/-- Python `str.upper()`. -/
def strUpper (s : String) : String := ⟨s.data.map charUpper⟩

/-- Lexicographic (code-point) strict order on strings, the order pandas uses
    for a string sort key. -/
def charListLt : List Char → List Char → Bool
  | [], [] => false
  | [], _ :: _ => true
  | _ :: _, [] => false
  | a :: s, b :: t => if a < b then true else if b < a then false else charListLt s t

/-- Strict string comparison for sort keys. -/
def strLt (a b : String) : Bool := charListLt a.data b.data

/-- The deduplication / uniqueness key `(indicator_name, year)`. -/
def key (r : Row) : String × Int := (r.indicator_name, r.year)

/-- Key of a raw row. -/
def rawKey (t : RawRow) : String × Int := (t.indicator_name, t.year)

/-- Re-inject a cleaned row into the nullable representation (the processed
    dataframe's `value` column is still a nullable pandas column). -/
def rowToRaw (r : Row) : RawRow :=
  ⟨r.country_name, r.country_code, r.indicator_code, r.indicator_name, r.year, some r.value⟩

/-- A raw row whose `value` turned out non-null, as a cleaned-phase row. -/
def rawToRow (t : RawRow) (v : ℚ) : Row :=
  ⟨t.country_name, t.country_code, t.indicator_code, t.indicator_name, t.year, v⟩

/-- Models `df.dropna(subset=['value'])` (transform_data.py line 91): keep exactly the
    rows whose `value` is non-null. -/
def dropNullValues (df : List RawRow) : List Row :=
  df.filterMap fun t => t.value.map (rawToRow t)

/-- Helper for `dedupFirst`: keep a row exactly when its key was not seen in an
    earlier row. -/
def dedupFirstAux (seen : List (String × Int)) : List Row → List Row
  | [] => []
  | x :: t => if key x ∈ seen then dedupFirstAux seen t else x :: dedupFirstAux (key x :: seen) t

/-- Models `df.drop_duplicates(subset=['indicator_name','year'])` with the default
    `keep='first'` (transform_data.py line 96): keep the first row of every key. -/
def dedupFirst (l : List Row) : List Row := dedupFirstAux [] l

/-- Helper for `uniqueFirst`. -/
def uniqueFirstAux {α : Type} [DecidableEq α] (seen : List α) : List α → List α
  | [] => []
  | x :: t => if x ∈ seen then uniqueFirstAux seen t else x :: uniqueFirstAux (x :: seen) t

/-- First-occurrence deduplication of an arbitrary list, the semantics of
    pandas `.unique()`. -/
def uniqueFirst {α : Type} [DecidableEq α] (l : List α) : List α := uniqueFirstAux [] l

/-- Field standardization of the Clean phase (transform_data.py lines 101-108):
    trim `country_name`, force `country_code := "BGD"`, trim `indicator_name`.
    (`year.astype(int)` is the identity here since `year` is already an `Int`.) -/
def standardize (r : Row) : Row :=
  { r with country_name := strTrim r.country_name
           country_code := "BGD"
           indicator_name := strTrim r.indicator_name }

/-- Insertion step for the sorts below. -/
def insertSortedBy {α : Type} (le : α → α → Bool) (r : α) : List α → List α
  | [] => [r]
  | x :: t => if le r x then r :: x :: t else x :: insertSortedBy le r t

/-- Insertion sort.  `sort_values` ordering on tied keys is unspecified
    (pandas defaults to an unstable quicksort); every use below either has
    distinct keys or does not depend on tie order. -/
def sortListBy {α : Type} (le : α → α → Bool) (l : List α) : List α :=
  l.foldr (insertSortedBy le) []

/-- Lexicographic `(indicator_name, year)` comparison used by the Clean sort. -/
def keyLe (a b : Row) : Bool :=
  strLt a.indicator_name b.indicator_name ||
    (decide (a.indicator_name = b.indicator_name) && decide (a.year ≤ b.year))

/-- Comparison by `year` used when a single indicator's series is sorted. -/
def yearLe (a b : Row) : Bool := decide (a.year ≤ b.year)

/-- Models `BangladeshDataTransformer.clean_data` (transform_data.py lines 82-116):
    drop null values, drop duplicate `(indicator_name, year)` keeping the first
    occurrence, standardize text fields, sort by `(indicator_name, year)`.
    Note the source standardizes (trims) AFTER deduplicating. -/
def clean_data (raw : List RawRow) : List Row :=
  sortListBy keyLe ((dedupFirst (dropNullValues raw)).map standardize)

/-- The fixed growth-indicator set (transform_data.py line 125). -/
def growth_indicators : List String := ["gdp_per_capita", "population", "gdp_growth"]

/-- Consecutive pairs of a list, the pairs over which `pct_change` / `diff`
    are computed. -/
def yoyPairs : List Row → List (Row × Row)
  | a :: b :: t => (a, b) :: yoyPairs (b :: t)
  | _ => []

/-- The derived year-over-year observation built from a consecutive pair
    (transform_data.py lines 137-144): value is
    `(v_t - v_{t-1}) / v_{t-1} * 100`, keyed to the later year. -/
def mkYoyRow (ind : String) (pc : Row × Row) : Row :=
  ⟨pc.2.country_name, pc.2.country_code, "CALC_" ++ strUpper ind ++ "_YOY",
   ind ++ "_yoy_growth_pct", pc.2.year, (pc.2.value - pc.1.value) / pc.1.value * 100⟩

/-- The year-over-year rows emitted for one sorted series: one row per
    consecutive pair whose percent change is finite (previous value nonzero;
    see the file comment on pandas inf/NaN). -/
def yoyRowsFor (ind : String) (s : List Row) : List Row :=
  ((yoyPairs s).filter fun pc => decide (pc.1.value ≠ 0)).map (mkYoyRow ind)

/-- The year-sorted series of one indicator inside a dataframe
    (`df[df['indicator_name'] == ind].sort_values('year')`). -/
def seriesOf (df : List Row) (ind : String) : List Row :=
  sortListBy yearLe (df.filter fun r => decide (r.indicator_name = ind))

/-- Rows appended for one growth indicator (guarded by
    `if len(indicator_data) > 1`, transform_data.py line 129). -/
def yoyNewFor (df : List Row) (ind : String) : List Row :=
  if 1 < (seriesOf df ind).length then yoyRowsFor ind (seriesOf df ind) else []

/-- One iteration of the growth loop: the source re-reads the accumulated
    dataframe (`df_features`) on every iteration. -/
def yoyStep (acc : List Row) (ind : String) : List Row := acc ++ yoyNewFor acc ind

/-- Cell of `df.pivot(index='year', columns='indicator_name', values='value')`:
    the first (and, post-clean, unique) matching observation. -/
def lookupVal (df : List Row) (ind : String) (y : Int) : Option ℚ :=
  (df.find? fun r => decide (r.indicator_name = ind) && decide (r.year = y)).map fun r => r.value

/-- Distinct years of a dataframe, ascending — the pivot index. -/
def uniqueYearsOf (df : List Row) : List Int :=
  sortListBy (fun a b => decide (a ≤ b)) (uniqueFirst (df.map fun r => r.year))

/-- Distinct indicator names of a dataframe in first-occurrence order
    (`df['indicator_name'].unique()`). -/
def uniqueNamesOf (df : List Row) : List String :=
  uniqueFirst (df.map fun r => r.indicator_name)

/-- The diversification-index formula (transform_data.py lines 153-160):
    `1 - ((a/100)^2 + (i/100)^2 + (((100 - a - i))/100)^2)` where the services
    share is estimated as the remainder. -/
def divIndexVal (a i : ℚ) : ℚ :=
  1 - ((a / 100) ^ 2 + (i / 100) ^ 2 + (((100 : ℚ) - a - i) / 100) ^ 2)

/-- The diversification rows: one per pivot year where both the agriculture and
    the industry share are present (the index is NaN, hence skipped, otherwise). -/
def divRowsFor (df : List Row) : List Row :=
  (uniqueYearsOf df).filterMap fun y =>
    match lookupVal df "agriculture_pct_gdp" y, lookupVal df "industry_pct_gdp" y with
    | some a, some i =>
        some ⟨"Bangladesh", "BGD", "CALC_ECON_DIV_IDX", "economic_diversification_index", y,
              divIndexVal a i⟩
    | _, _ => none

/-- Models `all(col in df_pivot.columns for col in [...])` for one column: the
    indicator occurs somewhere in the dataframe. -/
def hasIndicator (df : List Row) (ind : String) : Bool :=
  df.any fun r => decide (r.indicator_name = ind)

/-- Models `BangladeshDataTransformer.create_features` (transform_data.py lines 118-178):
    append year-over-year rows for the three growth indicators (a fold, since the
    source re-reads the growing dataframe), then, when both sector-share
    indicators exist, append the diversification-index rows. -/
def create_features (df : List Row) : List Row :=
  let df1 := growth_indicators.foldl yoyStep df
  if hasIndicator df1 "agriculture_pct_gdp" && hasIndicator df1 "industry_pct_gdp" then
    df1 ++ divRowsFor df1
  else df1

/-- Models `np.polyfit(years, values, 1)[0]`: the ordinary least-squares slope of
    value against year, in closed form (valid whenever the years are not all
    equal, which holds for every series the pipeline feeds it). -/
def olsSlope (pts : List (Int × ℚ)) : ℚ :=
  ((pts.length : ℚ) * (pts.map fun p => (p.1 : ℚ) * p.2).sum -
      (pts.map fun p => (p.1 : ℚ)).sum * (pts.map fun p => p.2).sum) /
    ((pts.length : ℚ) * (pts.map fun p => ((p.1 : ℚ)) ^ 2).sum -
      (pts.map fun p => (p.1 : ℚ)).sum ^ 2)

/-- Models `rolling(window=3, center=True).mean()` (transform_data.py line 194):
    computed by the source and never persisted; present here for fidelity only. -/
def movingAvg3 (s : List Row) : List (Option ℚ) :=
  (List.range s.length).map fun j =>
    match s.get? (j - 1), s.get? j, s.get? (j + 1) with
    | some a, some b, some c =>
        if 0 < j then some ((a.value + b.value + c.value) / 3) else none
    | _, _, _ => none

/-- Suffix of a derived trend indicator's name. -/
def trend_suffix : String := "_trend_coefficient"

/-- The trend rows emitted for one indicator from the current dataframe
    (transform_data.py lines 187-212): requires at least 5 observations, keys
    the single emitted row to the last (latest) year of the sorted series,
    value the least-squares slope.  (`not any(pd.isna(values))` always holds
    post-clean and is subsumed by the value type; the 3-year moving average
    `movingAvg3` is computed at this point by the source and then discarded.) -/
def trendRowFor (df : List Row) (ind : String) : List Row :=
  let s := seriesOf df ind
  if 5 ≤ s.length then
    match s.getLast? with
    | some last =>
        if 1 < s.length then
          [⟨"Bangladesh", "BGD", "TREND_" ++ strUpper ind, ind ++ trend_suffix,
            last.year, olsSlope (s.map fun r => (r.year, r.value))⟩]
        else []
    | none => []
  else []

/-- Models `BangladeshDataTransformer.create_time_series_analysis` (transform_data.py
    lines 180-217): the unique-name list is computed once up front, but each
    iteration re-reads the accumulated dataframe — hence a fold. -/
def create_time_series_analysis (df : List Row) : List Row :=
  (uniqueNamesOf df).foldl (fun acc ind => acc ++ trendRowFor acc ind) df

/-- Minimum of a list, pandas `.min()` (`None` on an empty column). -/
def listMin? {α : Type} [Min α] : List α → Option α
  | [] => none
  | x :: t => some (t.foldl min x)

/-- Maximum of a list, pandas `.max()`. -/
def listMax? {α : Type} [Max α] : List α → Option α
  | [] => none
  | x :: t => some (t.foldl max x)

/-- One per-indicator summary record (transform_data.py lines 229-239).
    `std_value`, a floating square root, is irrational in general and is the one
    field omitted from the rational model; no claim concerns it. -/
structure SummaryRecord where
  indicator : String
  count : Nat
  min_year : Option Int
  max_year : Option Int
  mean_value : ℚ
  min_value : Option ℚ
  max_value : Option ℚ
  null_count : Nat
deriving DecidableEq

/-- Models `BangladeshDataTransformer.generate_summary_statistics` (transform_data.py
    lines 219-248): one record per distinct indicator of the processed dataset;
    `null_count` is `isnull().sum()` over the (nullable) value column. -/
def generate_summary_statistics (df : List Row) : List SummaryRecord :=
  (uniqueNamesOf df).map fun ind =>
    let g := df.filter fun r => decide (r.indicator_name = ind)
    { indicator := ind
      count := g.length
      min_year := listMin? (g.map fun r => r.year)
      max_year := listMax? (g.map fun r => r.year)
      mean_value := (g.map fun r => r.value).sum / (g.length : ℚ)
      min_value := listMin? (g.map fun r => r.value)
      max_value := listMax? (g.map fun r => r.value)
      null_count := (g.map rowToRaw).countP fun t => t.value.isNone }

/-- Reconstruction of the long format from the wide pivot table: one triple per
    non-empty cell (missing indicator-by-year combinations are empty cells and
    yield nothing). -/
def meltWide (df : List Row) : List (Int × String × ℚ) :=
  ((uniqueYearsOf df).map fun y =>
    (uniqueNamesOf df).filterMap fun ind =>
      (lookupVal df ind y).map fun v => (y, ind, v)).flatten

/-- The three artifacts written by `save_processed_data` (transform_data.py
    lines 250-277): long format, wide pivot (rows = year, columns = indicator,
    cells nullable), summary table. -/
structure Outputs where
  main_dataset : List Row
  wide_format : List (Int × List (Option ℚ))
  summary_stats : List SummaryRecord
deriving DecidableEq

/-- Models `BangladeshDataTransformer.save_processed_data`. -/
def save_processed_data (processed : List Row) : Outputs :=
  { main_dataset := processed
    wide_format := (uniqueYearsOf processed).map fun y =>
      (y, (uniqueNamesOf processed).map fun ind => lookupVal processed ind y)
    summary_stats := generate_summary_statistics processed }

/-- The required raw columns (transform_data.py line 53). -/
def required_cols : List String := ["country_name", "indicator_name", "year", "value"]

/-- A loaded raw table: its column list (pandas `df.columns`) plus its rows. -/
structure RawTable where
  cols : List String
  rows : List RawRow
deriving DecidableEq

/-- The quality findings the Validate phase computes and logs
    (transform_data.py lines 58-80); none of them affects the phase outcome. -/
structure ValidationReport where
  total_records : Nat
  null_values : Nat
  null_percentage : ℚ
  unique_indicators : Nat
  year_coverage : Nat
  duplicates : Nat
  year_range_warning : Bool
deriving DecidableEq

/-- Models `BangladeshDataTransformer.validate_raw_data` (transform_data.py lines
    48-80): raises ValueError exactly when a required column is missing; every
    other finding is printed as a warning and the phase still succeeds. -/
def validate_raw_data (t : RawTable) : Except String ValidationReport :=
  let missing := required_cols.filter fun c => decide (c ∉ t.cols)
  if missing.isEmpty then
    Except.ok
      { total_records := t.rows.length
        null_values := t.rows.countP fun r => r.value.isNone
        null_percentage :=
          ((t.rows.countP fun r => r.value.isNone : Nat) : ℚ) / (t.rows.length : ℚ) * 100
        unique_indicators := (uniqueFirst (t.rows.map fun r => r.indicator_name)).length
        year_coverage := (uniqueFirst (t.rows.map fun r => r.year)).length
        duplicates := t.rows.length - (uniqueFirst (t.rows.map rawKey)).length
        year_range_warning :=
          match listMin? (t.rows.map fun r => r.year), listMax? (t.rows.map fun r => r.year) with
          | some m, some M => decide (m < 1990) || decide (2030 < M)
          | _, _ => false }
  else Except.error ("Missing required columns: " ++ String.intercalate ", " missing)

/-- Modelled from the spec: the error taxonomy (`MissingInputError`,
    `SchemaError`) of spec section 7 has no class in the source, which signals a
    missing input by printing a file-not-found message and returning False
    (transform_data.py lines 40-43) and a missing column by raising ValueError. -/
inductive TransformError where
  | MissingInputError
  | SchemaError (msg : String)
deriving DecidableEq

/-- Models `BangladeshDataTransformer.load_raw_data` over an abstract filesystem: the
    input artifact either exists (`some`) or is absent (`none`). -/
def load_raw_data (input : Option RawTable) : Except TransformError RawTable :=
  match input with
  | none => Except.error TransformError.MissingInputError
  | some t => Except.ok t

/-- The six sequential phases of `run_transformation`. -/
inductive Phase where
  | load
  | validate
  | clean
  | features
  | timeseries
  | persist
deriving DecidableEq

/-- Outcome of a transform run: which phases executed, the artifacts written
    (none when the run aborted before persisting), and overall success. -/
structure RunState where
  executed : List Phase
  outputs : Option Outputs
  ok : Bool
deriving DecidableEq

/-- Models `BangladeshDataTransformer.run_transformation` (transform_data.py lines
    279-312): each phase runs only when every earlier phase succeeded; a load
    failure returns False immediately, a validate failure propagates out as an
    uncaught exception; either way nothing is written. -/
def run_transformation (input : Option RawTable) : RunState :=
  match load_raw_data input with
  | Except.error _ => { executed := [Phase.load], outputs := none, ok := false }
  | Except.ok t =>
    match validate_raw_data t with
    | Except.error _ =>
        { executed := [Phase.load, Phase.validate], outputs := none, ok := false }
    | Except.ok _ =>
      let cleaned := clean_data t.rows
      let feats := create_features cleaned
      let ts := create_time_series_analysis feats
      { executed := [Phase.load, Phase.validate, Phase.clean, Phase.features,
                     Phase.timeseries, Phase.persist]
        outputs := some (save_processed_data ts)
        ok := true }

/-- Models `INSERT OR REPLACE` into `economic_indicators` with its
    `UNIQUE(indicator_name, year)` constraint (load_to_warehouse.py lines
    140-152): SQLite deletes any row conflicting on the key, then inserts. -/
def insertOrReplace (tbl : List Row) (r : Row) : List Row :=
  (tbl.filter fun t => decide (key t ≠ key r)) ++ [r]

/-- Models `DELETE FROM economic_indicators` (load_to_warehouse.py line 138). -/
def deleteAllRows (_tbl : List Row) : List Row := []

/-- Models `LocalDataWarehouse.load_processed_data` restricted to the fact table
    (load_to_warehouse.py lines 136-154): clear it, then insert-or-replace each
    long-format row in order. -/
def load_processed_data (tbl : List Row) (df : List Row) : List Row :=
  df.foldl insertOrReplace (deleteAllRows tbl)

/-! ### General helper lemmas -/

theorem insertSortedBy_perm {α : Type} (le : α → α → Bool) (r : α) :
    ∀ l : List α, (insertSortedBy le r l).Perm (r :: l)
  | [] => List.Perm.refl _
  | x :: t => by
    by_cases h : le r x = true
    · simp [insertSortedBy, h]
    · simp only [insertSortedBy, h]
      rw [if_neg (by simp [h])]
      exact ((insertSortedBy_perm le r t).cons x).trans (List.Perm.swap r x t)

theorem sortListBy_perm {α : Type} (le : α → α → Bool) :
    ∀ l : List α, (sortListBy le l).Perm l
  | [] => List.Perm.refl _
  | x :: t =>
    (insertSortedBy_perm le x (sortListBy le t)).trans ((sortListBy_perm le t).cons x)

theorem insertSortedBy_pairwise {α : Type} (le : α → α → Bool)
    (htot : ∀ a b, le a b = false → le b a = true)
    (htrans : ∀ a b c, le a b = true → le b c = true → le a c = true) (r : α) :
    ∀ l : List α, l.Pairwise (fun a b => le a b = true) →
      (insertSortedBy le r l).Pairwise (fun a b => le a b = true)
  | [], _ => by simp [insertSortedBy]
  | x :: t, h => by
    rcases List.pairwise_cons.mp h with ⟨hx, ht⟩
    by_cases hrx : le r x = true
    · rw [insertSortedBy, if_pos hrx]
      refine List.pairwise_cons.mpr ⟨?_, h⟩
      intro b hb
      rcases List.mem_cons.mp hb with rfl | hb
      · exact hrx
      · exact htrans r x b hrx (hx b hb)
    · rw [insertSortedBy, if_neg (by simp [hrx])]
      refine List.pairwise_cons.mpr ⟨?_, insertSortedBy_pairwise le htot htrans r t ht⟩
      intro b hb
      have := (insertSortedBy_perm le r t).mem_iff.mp hb
      rcases List.mem_cons.mp this with heq | hb2
      · rw [heq]
        exact htot r x (by simpa using hrx)
      · exact hx b hb2

theorem sortListBy_pairwise {α : Type} (le : α → α → Bool)
    (htot : ∀ a b, le a b = false → le b a = true)
    (htrans : ∀ a b c, le a b = true → le b c = true → le a c = true) :
    ∀ l : List α, (sortListBy le l).Pairwise (fun a b => le a b = true)
  | [] => by simp [sortListBy]
  | x :: t =>
    insertSortedBy_pairwise le htot htrans x _ (sortListBy_pairwise le htot htrans t)

theorem dedupFirstAux_spec (seen : List (String × Int)) :
    ∀ l : List Row,
      (dedupFirstAux seen l).Pairwise (fun a b => key a ≠ key b) ∧
        ∀ r ∈ dedupFirstAux seen l, key r ∉ seen ∧ r ∈ l
  | [] => by simp [dedupFirstAux]
  | x :: t => by
    by_cases hx : key x ∈ seen
    · rw [dedupFirstAux, if_pos hx]
      rcases dedupFirstAux_spec seen t with ⟨h1, h2⟩
      exact ⟨h1, fun r hr => ⟨(h2 r hr).1, List.mem_cons_of_mem x (h2 r hr).2⟩⟩
    · rw [dedupFirstAux, if_neg hx]
      rcases dedupFirstAux_spec (key x :: seen) t with ⟨h1, h2⟩
      refine ⟨List.pairwise_cons.mpr ⟨?_, h1⟩, ?_⟩
      · intro b hb
        have := (h2 b hb).1
        intro hkeq
        exact this (by rw [← hkeq]; exact List.mem_cons_self _ _)
      · intro r hr
        rcases List.mem_cons.mp hr with rfl | hr2
        · exact ⟨hx, List.mem_cons_self _ _⟩
        · refine ⟨fun hmem => (h2 r hr2).1 (List.mem_cons_of_mem _ hmem),
            List.mem_cons_of_mem x (h2 r hr2).2⟩

theorem dedupFirst_pairwise (l : List Row) :
    (dedupFirst l).Pairwise (fun a b => key a ≠ key b) :=
  (dedupFirstAux_spec [] l).1

theorem dedupFirst_subset {l : List Row} {r : Row} (h : r ∈ dedupFirst l) : r ∈ l :=
  ((dedupFirstAux_spec [] l).2 r h).2

theorem dedupFirstAux_find? (seen : List (String × Int)) :
    ∀ l : List Row, ∀ r ∈ dedupFirstAux seen l,
      l.find? (fun u => decide (key u = key r)) = some r
  | [], r, hr => by simp [dedupFirstAux] at hr
  | x :: t, r, hr => by
    by_cases hx : key x ∈ seen
    · rw [dedupFirstAux, if_pos hx] at hr
      have hne : key r ≠ key x := by
        intro h
        exact ((dedupFirstAux_spec seen t).2 r hr).1 (h ▸ hx)
      rw [List.find?_cons_of_neg _ (by simp [Ne.symm hne])]
      exact dedupFirstAux_find? seen t r hr
    · rw [dedupFirstAux, if_neg hx] at hr
      rcases List.mem_cons.mp hr with rfl | hr2
      · rw [List.find?_cons_of_pos _ (by simp)]
      · have hne : key r ≠ key x := by
          intro h
          exact ((dedupFirstAux_spec (key x :: seen) t).2 r hr2).1
            (h ▸ List.mem_cons_self _ _)
        rw [List.find?_cons_of_neg _ (by simp [Ne.symm hne])]
        exact dedupFirstAux_find? (key x :: seen) t r hr2

theorem dedupFirstAux_complete (seen : List (String × Int)) :
    ∀ l : List Row, ∀ u ∈ l, key u ∉ seen →
      ∃ r ∈ dedupFirstAux seen l, key r = key u
  | [], u, hu, _ => by simp at hu
  | x :: t, u, hu, hseen => by
    by_cases hx : key x ∈ seen
    · rw [dedupFirstAux, if_pos hx]
      rcases List.mem_cons.mp hu with heq | hu2
      · exact absurd (heq ▸ hx) hseen
      · exact dedupFirstAux_complete seen t u hu2 hseen
    · rw [dedupFirstAux, if_neg hx]
      rcases List.mem_cons.mp hu with heq | hu2
      · exact ⟨x, List.mem_cons_self _ _, by rw [heq]⟩
      · by_cases hku : key u = key x
        · exact ⟨x, List.mem_cons_self _ _, hku.symm⟩
        · rcases dedupFirstAux_complete (key x :: seen) t u hu2
            (by simp [hku, hseen]) with ⟨r, hr, hkr⟩
          exact ⟨r, List.mem_cons_of_mem x hr, hkr⟩

theorem uniqueFirstAux_spec {α : Type} [DecidableEq α] (seen : List α) :
    ∀ l : List α, (uniqueFirstAux seen l).Nodup ∧
      ∀ y, y ∈ uniqueFirstAux seen l ↔ y ∈ l ∧ y ∉ seen
  | [] => by simp [uniqueFirstAux]
  | x :: t => by
    by_cases hx : x ∈ seen
    · rw [uniqueFirstAux, if_pos hx]
      rcases uniqueFirstAux_spec seen t with ⟨h1, h2⟩
      refine ⟨h1, fun y => ?_⟩
      rw [h2 y, List.mem_cons]
      constructor
      · rintro ⟨hy, hys⟩
        exact ⟨Or.inr hy, hys⟩
      · rintro ⟨rfl | hy, hys⟩
        · exact absurd hx hys
        · exact ⟨hy, hys⟩
    · rw [uniqueFirstAux, if_neg hx]
      rcases uniqueFirstAux_spec (x :: seen) t with ⟨h1, h2⟩
      refine ⟨List.nodup_cons.mpr ⟨fun hmem => ?_, h1⟩, fun y => ?_⟩
      · exact ((h2 x).mp hmem).2 (List.mem_cons_self _ _)
      · constructor
        · intro hmem
          rcases List.mem_cons.mp hmem with heq | hmem2
          · exact ⟨by simp [heq], heq ▸ hx⟩
          · rcases (h2 y).mp hmem2 with ⟨hy, hys⟩
            exact ⟨List.mem_cons_of_mem _ hy, fun hm => hys (List.mem_cons_of_mem _ hm)⟩
        · rintro ⟨hmem, hys⟩
          rcases List.mem_cons.mp hmem with heq | hy
          · exact by simp [heq]
          · by_cases hyx : y = x
            · exact by simp [hyx]
            · exact List.mem_cons_of_mem _ ((h2 y).mpr ⟨hy, by simp [hyx, hys]⟩)

theorem uniqueFirst_nodup {α : Type} [DecidableEq α] (l : List α) :
    (uniqueFirst l).Nodup :=
  (uniqueFirstAux_spec [] l).1

theorem mem_uniqueFirst {α : Type} [DecidableEq α] {l : List α} {y : α} :
    y ∈ uniqueFirst l ↔ y ∈ l := by
  rw [uniqueFirst, (uniqueFirstAux_spec [] l).2 y]
  simp

theorem countP_le_one_of_pairwise {α : Type} (p : α → Bool) :
    ∀ l : List α, l.Pairwise (fun a b => ¬(p a = true ∧ p b = true)) →
      l.countP p ≤ 1
  | [], _ => by simp
  | x :: t, h => by
    rcases List.pairwise_cons.mp h with ⟨hx, ht⟩
    by_cases hpx : p x = true
    · have : t.countP p = 0 := by
        rw [List.countP_eq_zero]
        intro b hb hpb
        exact hx b hb ⟨hpx, hpb⟩
      simp [List.countP_cons, hpx, this]
    · simp only [List.countP_cons, hpx, if_neg]
      simpa using countP_le_one_of_pairwise p t ht

theorem countP_eq_one_of_mem_pairwise {α : Type} (p : α → Bool) (l : List α)
    (hpair : l.Pairwise (fun a b => ¬(p a = true ∧ p b = true)))
    {r : α} (hr : r ∈ l) (hpr : p r = true) : l.countP p = 1 := by
  have h1 : 0 < l.countP p := List.countP_pos_iff.mpr ⟨r, hr, hpr⟩
  have h2 : l.countP p ≤ 1 := countP_le_one_of_pairwise p l hpair
  omega

theorem find?_append_of_right_none {α : Type} (p : α → Bool) (l2 : List α)
    (h2 : ∀ r ∈ l2, p r = false) :
    ∀ l1 : List α, (l1 ++ l2).find? p = l1.find? p
  | [] => by
    simp only [List.nil_append, List.find?_nil]
    rw [List.find?_eq_none]
    intro x hx
    simp [h2 x hx]
  | x :: t => by
    by_cases hpx : p x = true
    · rw [List.cons_append, List.find?_cons_of_pos _ hpx, List.find?_cons_of_pos _ hpx]
    · rw [List.cons_append, List.find?_cons_of_neg _ hpx, List.find?_cons_of_neg _ hpx]
      exact find?_append_of_right_none p l2 h2 t

theorem mem_dropNullValues {raw : List RawRow} {r : Row} :
    r ∈ dropNullValues raw ↔ ∃ t ∈ raw, ∃ v, t.value = some v ∧ r = rawToRow t v := by
  simp only [dropNullValues, List.mem_filterMap, Option.map_eq_some']
  constructor
  · rintro ⟨t, ht, v, hv, rfl⟩
    exact ⟨t, ht, v, hv, rfl⟩
  · rintro ⟨t, ht, v, hv, rfl⟩
    exact ⟨t, ht, v, hv, rfl⟩

theorem seriesOf_perm (df : List Row) (ind : String) :
    (seriesOf df ind).Perm (df.filter fun r => decide (r.indicator_name = ind)) :=
  sortListBy_perm _ _

theorem mem_seriesOf {df : List Row} {ind : String} {r : Row} :
    r ∈ seriesOf df ind ↔ r ∈ df ∧ r.indicator_name = ind := by
  rw [(seriesOf_perm df ind).mem_iff]
  simp [List.mem_filter]

theorem seriesOf_sorted (df : List Row) (ind : String) :
    (seriesOf df ind).Pairwise fun a b => a.year ≤ b.year := by
  have h := sortListBy_pairwise yearLe
    (fun a b hab => by
      simp only [yearLe, decide_eq_false_iff_not, not_le] at hab
      simp [yearLe, le_of_lt hab])
    (fun a b c hab hbc => by
      simp only [yearLe, decide_eq_true_eq] at hab hbc ⊢
      exact le_trans hab hbc)
    (df.filter fun r => decide (r.indicator_name = ind))
  exact h.imp fun hab => by simpa [yearLe] using hab

theorem key_ne_symm : Symmetric fun a b : Row => key a ≠ key b :=
  fun _ _ h => h.symm

theorem seriesOf_year_strict {df : List Row} (ind : String)
    (hkeys : df.Pairwise fun a b => key a ≠ key b) :
    (seriesOf df ind).Pairwise fun a b => a.year < b.year := by
  have hfil : (df.filter fun r => decide (r.indicator_name = ind)).Pairwise
      (fun a b => key a ≠ key b) := hkeys.filter _
  have hkey : (seriesOf df ind).Pairwise fun a b => key a ≠ key b :=
    ((seriesOf_perm df ind).pairwise_iff fun h => Ne.symm h).mpr hfil
  have hs := seriesOf_sorted df ind
  refine List.Pairwise.imp_of_mem ?_ (hs.and hkey)
  intro a b ha hb hab
  rcases hab with ⟨hle, hne⟩
  have hna : a.indicator_name = ind := (mem_seriesOf.mp ha).2
  have hnb : b.indicator_name = ind := (mem_seriesOf.mp hb).2
  have hyne : a.year ≠ b.year := by
    intro h
    exact hne (by simp [key, hna, hnb, h])
  omega

theorem yoyPairs_map_snd : ∀ s : List Row, (yoyPairs s).map Prod.snd = s.tail
  | [] => rfl
  | [_] => rfl
  | a :: b :: t => by
    simpa [yoyPairs] using yoyPairs_map_snd (b :: t)

theorem yoyPairs_mem : ∀ (s : List Row) (i : Nat) (rp rc : Row),
    s.get? i = some rp → s.get? (i + 1) = some rc → (rp, rc) ∈ yoyPairs s
  | [], i, _, _, hp, _ => by simp at hp
  | [a], i, _, _, hp, hc => by
    rcases i with _ | j
    · simp at hc
    · simp at hp
  | a :: b :: t, 0, rp, rc, hp, hc => by
    simp only [List.get?_cons_zero, Option.some.injEq] at hp
    simp only [List.get?_cons_succ, List.get?_cons_zero, Option.some.injEq] at hc
    rw [← hp, ← hc]
    exact List.mem_cons_self _ _
  | a :: b :: t, i + 1, rp, rc, hp, hc => by
    simp only [List.get?_cons_succ] at hp hc
    exact List.mem_cons_of_mem _ (yoyPairs_mem (b :: t) i rp rc hp hc)

theorem yoyRowsFor_name {ind : String} {s : List Row} {r : Row}
    (hr : r ∈ yoyRowsFor ind s) : r.indicator_name = ind ++ "_yoy_growth_pct" := by
  rcases List.mem_map.mp hr with ⟨pc, _, rfl⟩
  rfl

theorem yoyNewFor_name {df : List Row} {ind : String} {r : Row}
    (hr : r ∈ yoyNewFor df ind) : r.indicator_name = ind ++ "_yoy_growth_pct" := by
  unfold yoyNewFor at hr
  by_cases h : 1 < (seriesOf df ind).length
  · rw [if_pos h] at hr
    exact yoyRowsFor_name hr
  · rw [if_neg h] at hr
    simp at hr

/-- The rows the three growth-loop iterations append, each computed against the
    base dataframe; equal to the fold because derived names never collide with
    the remaining growth indicators. -/
def yoyAll (df : List Row) : List Row :=
  yoyNewFor df "gdp_per_capita" ++ yoyNewFor df "population" ++ yoyNewFor df "gdp_growth"

theorem seriesOf_append_of_names (df e : List Row) (ind : String)
    (h : ∀ r ∈ e, r.indicator_name ≠ ind) : seriesOf (df ++ e) ind = seriesOf df ind := by
  unfold seriesOf
  rw [List.filter_append]
  have he : e.filter (fun r => decide (r.indicator_name = ind)) = [] := by
    rw [List.filter_eq_nil_iff]
    intro r hr
    simp [h r hr]
  rw [he, List.append_nil]

theorem yoyNewFor_append (df e : List Row) (ind : String)
    (h : ∀ r ∈ e, r.indicator_name ≠ ind) : yoyNewFor (df ++ e) ind = yoyNewFor df ind := by
  unfold yoyNewFor
  rw [seriesOf_append_of_names df e ind h]

theorem growth_fold_eq (df : List Row) :
    growth_indicators.foldl yoyStep df = df ++ yoyAll df := by
  have h1 : ∀ r ∈ yoyNewFor df "gdp_per_capita",
      r.indicator_name = "gdp_per_capita_yoy_growth_pct" := fun r hr => yoyNewFor_name hr
  have e2 : yoyNewFor (df ++ yoyNewFor df "gdp_per_capita") "population" =
      yoyNewFor df "population" := by
    refine yoyNewFor_append _ _ _ fun r hr => ?_
    rw [h1 r hr]
    decide
  have h2 : ∀ r ∈ yoyNewFor df "gdp_per_capita" ++ yoyNewFor df "population",
      r.indicator_name = "gdp_per_capita_yoy_growth_pct" ∨
        r.indicator_name = "population_yoy_growth_pct" := by
    intro r hr
    rcases List.mem_append.mp hr with hr | hr
    · exact Or.inl (yoyNewFor_name hr)
    · exact Or.inr (yoyNewFor_name hr)
  have e3 : yoyNewFor (df ++ yoyNewFor df "gdp_per_capita" ++ yoyNewFor df "population")
      "gdp_growth" = yoyNewFor df "gdp_growth" := by
    rw [List.append_assoc]
    refine yoyNewFor_append _ _ _ fun r hr => ?_
    rcases h2 r hr with h | h <;> rw [h] <;> decide
  show yoyStep (yoyStep (yoyStep df "gdp_per_capita") "population") "gdp_growth" = _
  unfold yoyStep
  rw [e2]
  rw [show df ++ yoyNewFor df "gdp_per_capita" ++ yoyNewFor df "population" ++
      yoyNewFor (df ++ yoyNewFor df "gdp_per_capita" ++ yoyNewFor df "population") "gdp_growth"
      = df ++ yoyNewFor df "gdp_per_capita" ++ yoyNewFor df "population" ++
        yoyNewFor df "gdp_growth" from by rw [e3]]
  simp [yoyAll, List.append_assoc]

theorem create_features_eq (df : List Row) :
    create_features df =
      if hasIndicator (df ++ yoyAll df) "agriculture_pct_gdp" &&
          hasIndicator (df ++ yoyAll df) "industry_pct_gdp" then
        (df ++ yoyAll df) ++ divRowsFor (df ++ yoyAll df)
      else df ++ yoyAll df := by
  unfold create_features
  rw [growth_fold_eq]

theorem yoyAll_name {df : List Row} {r : Row} (hr : r ∈ yoyAll df) :
    r.indicator_name = "gdp_per_capita_yoy_growth_pct" ∨
      r.indicator_name = "population_yoy_growth_pct" ∨
      r.indicator_name = "gdp_growth_yoy_growth_pct" := by
  rcases List.mem_append.mp hr with hr | hr
  · rcases List.mem_append.mp hr with hr | hr
    · exact Or.inl (yoyNewFor_name hr)
    · exact Or.inr (Or.inl (yoyNewFor_name hr))
  · exact Or.inr (Or.inr (yoyNewFor_name hr))

theorem divRowsFor_shape {df : List Row} {r : Row} (hr : r ∈ divRowsFor df) :
    ∃ a i, lookupVal df "agriculture_pct_gdp" r.year = some a ∧
      lookupVal df "industry_pct_gdp" r.year = some i ∧
      r = ⟨"Bangladesh", "BGD", "CALC_ECON_DIV_IDX", "economic_diversification_index", r.year,
            divIndexVal a i⟩ := by
  rcases List.mem_filterMap.mp hr with ⟨y, _, hy⟩
  rcases ha : lookupVal df "agriculture_pct_gdp" y with _ | a <;>
    rcases hi : lookupVal df "industry_pct_gdp" y with _ | i <;>
      rw [ha, hi] at hy <;> simp at hy
  rcases hy with rfl
  exact ⟨a, i, ha, hi, rfl⟩

theorem divRowsFor_name {df : List Row} {r : Row} (hr : r ∈ divRowsFor df) :
    r.indicator_name = "economic_diversification_index" := by
  rcases divRowsFor_shape hr with ⟨a, i, _, _, hre⟩
  rw [hre]

theorem string_append_right_cancel {a b s : String} (h : a ++ s = b ++ s) : a = b := by
  rcases a with ⟨da⟩
  rcases b with ⟨db⟩
  rcases s with ⟨ds⟩
  have hd : da ++ ds = db ++ ds := congrArg String.data h
  exact congrArg String.mk (List.append_cancel_right hd)

theorem mkYoyRow_mem_yoyRowsFor {ind : String} {s : List Row} {rp rc : Row}
    (hpair : (rp, rc) ∈ yoyPairs s) (h0 : rp.value ≠ 0) :
    mkYoyRow ind (rp, rc) ∈ yoyRowsFor ind s := by
  refine List.mem_map_of_mem _ (List.mem_filter.mpr ⟨hpair, ?_⟩)
  simpa using h0

theorem yoyRowsFor_year_pairwise {ind : String} {s : List Row}
    (hstrict : s.Pairwise fun a b => a.year < b.year) :
    (yoyRowsFor ind s).Pairwise fun a b => a.year ≠ b.year := by
  have h1 : ((yoyPairs s).map Prod.snd).Pairwise (fun a b => a.year < b.year) := by
    rw [yoyPairs_map_snd]
    exact hstrict.sublist (List.tail_sublist s)
  have h2 : (yoyPairs s).Pairwise fun p q => p.2.year < q.2.year := by
    rw [List.pairwise_map] at h1
    exact h1
  have h3 : ((yoyPairs s).filter fun pc => decide (pc.1.value ≠ 0)).Pairwise
      (fun p q => p.2.year < q.2.year) := h2.sublist (List.filter_sublist _)
  rw [yoyRowsFor, List.pairwise_map]
  exact h3.imp fun h => ne_of_lt h

theorem yoyRowsFor_year_gt {ind : String} {s : List Row} {r0 : Row}
    (hstrict : s.Pairwise fun a b => a.year < b.year) (h0 : s.head? = some r0) :
    ∀ r ∈ yoyRowsFor ind s, r0.year < r.year := by
  intro r hr
  rcases List.mem_map.mp hr with ⟨pc, hpc, rfl⟩
  have hpc2 : pc ∈ yoyPairs s := List.mem_of_mem_filter hpc
  have hsnd : pc.2 ∈ (yoyPairs s).map Prod.snd := List.mem_map_of_mem _ hpc2
  rw [yoyPairs_map_snd] at hsnd
  cases s with
  | nil => simp at h0
  | cons a t =>
    simp only [List.head?_cons, Option.some.injEq] at h0
    have := (List.pairwise_cons.mp hstrict).1 pc.2 (by simpa using hsnd)
    rw [← h0]
    simpa [mkYoyRow] using this

theorem growth_not_div :
    ∀ ind ∈ growth_indicators,
      "economic_diversification_index" ≠ ind ++ "_yoy_growth_pct" := by decide

theorem countP_yoyAll_eq (df : List Row) (ind : String) (hind : ind ∈ growth_indicators)
    (Y : Int) :
    ((yoyAll df).countP fun r =>
        decide (r.indicator_name = ind ++ "_yoy_growth_pct" ∧ r.year = Y)) =
      (yoyNewFor df ind).countP fun r =>
        decide (r.indicator_name = ind ++ "_yoy_growth_pct" ∧ r.year = Y) := by
  have hzero : ∀ g : String, g ≠ ind →
      ((yoyNewFor df g).countP fun r =>
        decide (r.indicator_name = ind ++ "_yoy_growth_pct" ∧ r.year = Y)) = 0 := by
    intro g hne
    rw [List.countP_eq_zero]
    intro r hr
    simp only [decide_eq_true_eq, not_and]
    intro hname
    exact absurd (string_append_right_cancel ((yoyNewFor_name hr) ▸ hname)) hne
  have hmem : ind = "gdp_per_capita" ∨ ind = "population" ∨ ind = "gdp_growth" := by
    simpa [growth_indicators] using hind
  rcases hmem with rfl | rfl | rfl
  · rw [yoyAll, List.countP_append, List.countP_append,
      hzero "population" (by decide), hzero "gdp_growth" (by decide)]
    omega
  · rw [yoyAll, List.countP_append, List.countP_append,
      hzero "gdp_per_capita" (by decide), hzero "gdp_growth" (by decide)]
    omega
  · rw [yoyAll, List.countP_append, List.countP_append,
      hzero "gdp_per_capita" (by decide), hzero "population" (by decide)]
    omega

/-- C2. For each growth-set indicator and each consecutive pair
    `v_{t-1} = rp.value`, `v_t = rc.value` of its year-sorted cleaned series with
    `v_{t-1} ≠ 0`, the feature phase emits exactly one `<indicator>_yoy_growth_pct`
    observation at the later year, its value is
    `(v_t - v_{t-1}) / v_{t-1} * 100` (the value carried by `mkYoyRow`), and no
    such observation exists at the first year of the series. -/
theorem c2_yoy_growth (df : List Row) (ind : String) (i : Nat) (rp rc : Row)
    (hind : ind ∈ growth_indicators)
    (hkeys : df.Pairwise fun a b => key a ≠ key b)
    (hno : ∀ r ∈ df, ∀ g ∈ growth_indicators, r.indicator_name ≠ g ++ "_yoy_growth_pct")
    (hp : (seriesOf df ind).get? i = some rp)
    (hc : (seriesOf df ind).get? (i + 1) = some rc)
    (h0 : rp.value ≠ 0) :
    ((create_features df).countP fun r =>
        decide (r.indicator_name = ind ++ "_yoy_growth_pct" ∧ r.year = rc.year)) = 1 ∧
      mkYoyRow ind (rp, rc) ∈ create_features df ∧
      ∀ r0, (seriesOf df ind).head? = some r0 →
        ((create_features df).countP fun r =>
          decide (r.indicator_name = ind ++ "_yoy_growth_pct" ∧ r.year = r0.year)) = 0 := by
  have hstrict := seriesOf_year_strict ind hkeys
  have hlen2 : 1 < (seriesOf df ind).length := by
    rcases List.get?_eq_some.mp hc with ⟨hlt, _⟩
    omega
  have hemit : yoyNewFor df ind = yoyRowsFor ind (seriesOf df ind) := by
    rw [yoyNewFor, if_pos hlen2]
  have hpair : (rp, rc) ∈ yoyPairs (seriesOf df ind) := yoyPairs_mem _ i rp rc hp hc
  have hmk : mkYoyRow ind (rp, rc) ∈ yoyNewFor df ind := by
    rw [hemit]
    exact mkYoyRow_mem_yoyRowsFor hpair h0
  have hdf_zero : ∀ Y : Int,
      (df.countP fun r =>
        decide (r.indicator_name = ind ++ "_yoy_growth_pct" ∧ r.year = Y)) = 0 := by
    intro Y
    rw [List.countP_eq_zero]
    intro r hr
    simp only [decide_eq_true_eq, not_and]
    intro hname
    exact absurd hname (hno r hr ind hind)
  have hdiv_zero : ∀ (l : List Row) (Y : Int), (∀ r ∈ l, r ∈ divRowsFor (df ++ yoyAll df)) →
      (l.countP fun r =>
        decide (r.indicator_name = ind ++ "_yoy_growth_pct" ∧ r.year = Y)) = 0 := by
    intro l Y hl
    rw [List.countP_eq_zero]
    intro r hr
    simp only [decide_eq_true_eq, not_and]
    intro hname
    exact absurd ((divRowsFor_name (hl r hr)).symm.trans hname) (growth_not_div ind hind)
  have hcount : ∀ Y : Int,
      ((create_features df).countP fun r =>
        decide (r.indicator_name = ind ++ "_yoy_growth_pct" ∧ r.year = Y)) =
      ((yoyNewFor df ind).countP fun r =>
        decide (r.indicator_name = ind ++ "_yoy_growth_pct" ∧ r.year = Y)) := by
    intro Y
    rw [create_features_eq]
    by_cases hgate : (hasIndicator (df ++ yoyAll df) "agriculture_pct_gdp" &&
        hasIndicator (df ++ yoyAll df) "industry_pct_gdp") = true
    · rw [if_pos hgate, List.countP_append, List.countP_append, hdf_zero,
        countP_yoyAll_eq df ind hind, hdiv_zero _ Y (fun r hr => hr)]
      omega
    · rw [if_neg hgate, List.countP_append, hdf_zero, countP_yoyAll_eq df ind hind]
      omega
  have hmem_out : mkYoyRow ind (rp, rc) ∈ create_features df := by
    rw [create_features_eq]
    have hin : mkYoyRow ind (rp, rc) ∈ df ++ yoyAll df := by
      refine List.mem_append_right _ ?_
      have hmem3 : ind = "gdp_per_capita" ∨ ind = "population" ∨ ind = "gdp_growth" := by
        simpa [growth_indicators] using hind
      rcases hmem3 with rfl | rfl | rfl <;> rw [yoyAll] <;>
        simp only [List.mem_append] <;> tauto
    by_cases hgate : (hasIndicator (df ++ yoyAll df) "agriculture_pct_gdp" &&
        hasIndicator (df ++ yoyAll df) "industry_pct_gdp") = true
    · rw [if_pos hgate]
      exact List.mem_append_left _ hin
    · rw [if_neg hgate]
      exact hin
  refine ⟨?_, hmem_out, ?_⟩
  · rw [hcount rc.year, hemit]
    have hpw : (yoyRowsFor ind (seriesOf df ind)).Pairwise
        (fun a b => ¬((decide (a.indicator_name = ind ++ "_yoy_growth_pct" ∧
            a.year = rc.year)) = true ∧
          (decide (b.indicator_name = ind ++ "_yoy_growth_pct" ∧
            b.year = rc.year)) = true)) := by
      refine (yoyRowsFor_year_pairwise hstrict).imp ?_
      intro a b hne hcontra
      simp only [decide_eq_true_eq] at hcontra
      exact hne (hcontra.1.2.trans hcontra.2.2.symm)
    refine countP_eq_one_of_mem_pairwise _ _ hpw (hemit ▸ hmk) ?_
    simp [mkYoyRow]
  · intro r0 hr0
    rw [hcount r0.year, hemit, List.countP_eq_zero]
    intro r hr
    have := yoyRowsFor_year_gt hstrict hr0 r hr
    simp only [decide_eq_true_eq, not_and]
    intro _
    omega

/-- Concrete cleaned dataset used by the C2 witness. -/
def c2df : List Row :=
  [⟨"Bangladesh", "BGD", "SP.POP.TOTL", "population", 2000, 5⟩,
   ⟨"Bangladesh", "BGD", "SP.POP.TOTL", "population", 2001, 10⟩,
   ⟨"Bangladesh", "BGD", "SP.POP.TOTL", "population", 2002, 11⟩]

/-- First row of the witness series. -/
def c2rp : Row := ⟨"Bangladesh", "BGD", "SP.POP.TOTL", "population", 2000, 5⟩

/-- Second row of the witness series. -/
def c2rc : Row := ⟨"Bangladesh", "BGD", "SP.POP.TOTL", "population", 2001, 10⟩

/-- Witness for C2 at a concrete three-row series. -/
theorem c2_yoy_growth_witness :
    ("population" ∈ growth_indicators ∧
      (c2df.Pairwise fun a b => key a ≠ key b) ∧
      (∀ r ∈ c2df, ∀ g ∈ growth_indicators, r.indicator_name ≠ g ++ "_yoy_growth_pct") ∧
      (seriesOf c2df "population").get? 0 = some c2rp ∧
      (seriesOf c2df "population").get? (0 + 1) = some c2rc ∧
      c2rp.value ≠ 0) ∧
    (((create_features c2df).countP fun r =>
        decide (r.indicator_name = "population" ++ "_yoy_growth_pct" ∧ r.year = c2rc.year)) = 1 ∧
      mkYoyRow "population" (c2rp, c2rc) ∈ create_features c2df ∧
      ∀ r0, (seriesOf c2df "population").head? = some r0 →
        ((create_features c2df).countP fun r =>
          decide (r.indicator_name = "population" ++ "_yoy_growth_pct" ∧
            r.year = r0.year)) = 0) :=
  ⟨⟨by decide, by decide, by decide, by decide, by decide, by decide⟩,
   c2_yoy_growth c2df "population" 0 c2rp c2rc (by decide) (by decide) (by decide)
     (by decide) (by decide) (by decide)⟩

theorem trendRowFor_name {df : List Row} {ind : String} {r : Row}
    (hr : r ∈ trendRowFor df ind) : r.indicator_name = ind ++ trend_suffix := by
  unfold trendRowFor at hr
  by_cases h5 : 5 ≤ (seriesOf df ind).length
  · rw [if_pos h5] at hr
    rcases hl : (seriesOf df ind).getLast? with _ | last <;> rw [hl] at hr <;>
      dsimp only at hr
    · simp at hr
    · by_cases h1 : 1 < (seriesOf df ind).length
      · rw [if_pos h1] at hr
        rcases List.mem_singleton.mp hr with rfl
        rfl
      · rw [if_neg h1] at hr
        simp at hr
  · rw [if_neg h5] at hr
    simp at hr

theorem trendRowFor_eq {df : List Row} {ind : String}
    (h5 : 5 ≤ (seriesOf df ind).length) :
    ∃ last, (seriesOf df ind).getLast? = some last ∧
      trendRowFor df ind =
        [⟨"Bangladesh", "BGD", "TREND_" ++ strUpper ind, ind ++ trend_suffix, last.year,
          olsSlope ((seriesOf df ind).map fun r => (r.year, r.value))⟩] := by
  rcases hl : (seriesOf df ind).getLast? with _ | last
  · rw [List.getLast?_eq_none_iff] at hl
    rw [hl] at h5
    simp at h5
  · refine ⟨last, rfl, ?_⟩
    unfold trendRowFor
    rw [if_pos h5, hl]
    dsimp only
    rw [if_pos (by omega)]

theorem sorted_getLast_bound :
    ∀ s : List Row, s.Pairwise (fun a b => a.year ≤ b.year) →
      ∀ last, s.getLast? = some last → ∀ r ∈ s, r.year ≤ last.year
  | [], _, last, h, _, _ => by simp at h
  | [a], _, last, h, r, hm => by
    simp only [List.getLast?_singleton, Option.some.injEq] at h
    rcases List.mem_singleton.mp hm with rfl
    rw [h]
  | a :: b :: t, hp, last, h, r, hm => by
    have hlast : (b :: t).getLast? = some last := by
      rw [← List.getLast?_cons_cons]
      exact h
    rcases List.mem_cons.mp hm with heq | hm2
    · have hlmem : last ∈ b :: t := List.mem_of_getLast?_eq_some hlast
      rw [heq]
      exact (List.pairwise_cons.mp hp).1 last hlmem
    · exact sorted_getLast_bound (b :: t) (List.pairwise_cons.mp hp).2 last hlast r hm2

theorem ts_fold_aux (df : List Row)
    (hsep : ∀ m ∈ df.map (fun r => r.indicator_name),
      ∀ n ∈ df.map (fun r => r.indicator_name), m ≠ n ++ trend_suffix) :
    ∀ (L : List String) (extra : List Row),
      (∀ n ∈ L, n ∈ df.map fun r => r.indicator_name) →
      (∀ r ∈ extra, ∀ n ∈ df.map (fun r => r.indicator_name), r.indicator_name ≠ n) →
      L.foldl (fun acc i => acc ++ trendRowFor acc i) (df ++ extra) =
        df ++ extra ++ (L.map fun i => trendRowFor df i).flatten
  | [], extra, _, _ => by simp
  | i :: L2, extra, hL, hextra => by
    have hiname : i ∈ df.map fun r => r.indicator_name := hL i (List.mem_cons_self _ _)
    have hseries : seriesOf (df ++ extra) i = seriesOf df i :=
      seriesOf_append_of_names df extra i fun r hr => hextra r hr i hiname
    have htr : trendRowFor (df ++ extra) i = trendRowFor df i := by
      unfold trendRowFor
      rw [hseries]
    have hnew : ∀ r ∈ extra ++ trendRowFor df i,
        ∀ n ∈ df.map (fun r => r.indicator_name), r.indicator_name ≠ n := by
      intro r hr n hn
      rcases List.mem_append.mp hr with hr | hr
      · exact hextra r hr n hn
      · rw [trendRowFor_name hr]
        exact fun h => hsep n hn i hiname h.symm
    have hstep : (i :: L2).foldl (fun acc j => acc ++ trendRowFor acc j) (df ++ extra) =
        L2.foldl (fun acc j => acc ++ trendRowFor acc j)
          (df ++ (extra ++ trendRowFor df i)) := by
      rw [List.foldl_cons, htr, List.append_assoc]
    rw [hstep, ts_fold_aux df hsep L2 (extra ++ trendRowFor df i)
      (fun n hn => hL n (List.mem_cons_of_mem _ hn)) hnew]
    simp [List.append_assoc]

theorem ts_eq (df : List Row)
    (hsep : ∀ m ∈ df.map (fun r => r.indicator_name),
      ∀ n ∈ df.map (fun r => r.indicator_name), m ≠ n ++ trend_suffix) :
    create_time_series_analysis df =
      df ++ ((uniqueNamesOf df).map fun i => trendRowFor df i).flatten := by
  have h := ts_fold_aux df hsep (uniqueNamesOf df) []
    (fun n hn => mem_uniqueFirst.mp hn) (by simp)
  simpa [create_time_series_analysis] using h

theorem countP_trend_flatten_zero (df : List Row) (ind : String) :
    ∀ L : List String, ind ∉ L →
      (((L.map fun i => trendRowFor df i).flatten).countP fun r =>
        decide (r.indicator_name = ind ++ trend_suffix)) = 0
  | [], _ => by simp
  | j :: L2, hnotin => by
    have hj : j ≠ ind := fun h => hnotin (h ▸ List.mem_cons_self _ _)
    have hz : ((trendRowFor df j).countP fun r =>
        decide (r.indicator_name = ind ++ trend_suffix)) = 0 := by
      rw [List.countP_eq_zero]
      intro r hr
      simp only [decide_eq_true_eq]
      intro hname
      exact hj (string_append_right_cancel ((trendRowFor_name hr) ▸ hname))
    rw [List.map_cons, List.flatten_cons, List.countP_append, hz,
      countP_trend_flatten_zero df ind L2 fun h => hnotin (List.mem_cons_of_mem _ h)]

theorem countP_trend_flatten (df : List Row) (ind : String) :
    ∀ L : List String, L.Nodup → ind ∈ L →
      (((L.map fun i => trendRowFor df i).flatten).countP fun r =>
        decide (r.indicator_name = ind ++ trend_suffix)) =
        ((trendRowFor df ind).countP fun r =>
          decide (r.indicator_name = ind ++ trend_suffix))
  | [], _, hmem => by simp at hmem
  | j :: L2, hnd, hmem => by
    rcases List.mem_cons.mp hmem with heq | hmem2
    · have hnotin : ind ∉ L2 := heq ▸ (List.nodup_cons.mp hnd).1
      rw [List.map_cons, List.flatten_cons, List.countP_append,
        countP_trend_flatten_zero df ind L2 hnotin, ← heq]
      omega
    · have hj : j ≠ ind := by
        intro h
        exact (List.nodup_cons.mp hnd).1 (h ▸ hmem2)
      have hz : ((trendRowFor df j).countP fun r =>
          decide (r.indicator_name = ind ++ trend_suffix)) = 0 := by
        rw [List.countP_eq_zero]
        intro r hr
        simp only [decide_eq_true_eq]
        intro hname
        exact hj (string_append_right_cancel ((trendRowFor_name hr) ▸ hname))
      rw [List.map_cons, List.flatten_cons, List.countP_append, hz,
        countP_trend_flatten df ind L2 (List.nodup_cons.mp hnd).2 hmem2]
      omega

theorem sum_sq_sub (x : ℚ) : ∀ t : List ℚ,
    (t.map fun y => (x - y) ^ 2).sum =
      (t.length : ℚ) * x ^ 2 - 2 * x * t.sum + (t.map fun y => y ^ 2).sum
  | [] => by simp
  | y :: t2 => by
    simp only [List.map_cons, List.sum_cons, List.length_cons]
    rw [sum_sq_sub x t2]
    push_cast
    ring

theorem sqd_nonneg (x : ℚ) (t : List ℚ) : 0 ≤ (t.map fun y => (x - y) ^ 2).sum := by
  refine List.sum_nonneg ?_
  intro q hq
  rcases List.mem_map.mp hq with ⟨y, _, rfl⟩
  positivity

theorem sqd_pos (x : ℚ) :
    ∀ t : List ℚ, ∀ y ∈ t, y ≠ x → 0 < (t.map fun z => (x - z) ^ 2).sum
  | z :: t2, y, hy, hne => by
    simp only [List.map_cons, List.sum_cons]
    rcases List.mem_cons.mp hy with heq | hm
    · have hzx : x - z ≠ 0 := sub_ne_zero.mpr fun h => hne (heq ▸ h.symm)
      have h1 : 0 < (x - z) ^ 2 := lt_of_le_of_ne (sq_nonneg _) (Ne.symm (pow_ne_zero 2 hzx))
      exact add_pos_of_pos_of_nonneg h1 (sqd_nonneg x t2)
    · exact add_pos_of_nonneg_of_pos (sq_nonneg _) (sqd_pos x t2 y hm hne)

theorem var_nonneg :
    ∀ xs : List ℚ, 0 ≤ (xs.length : ℚ) * (xs.map fun y => y ^ 2).sum - xs.sum ^ 2
  | [] => by simp
  | x :: t => by
    have h1 := var_nonneg t
    have h2 := sqd_nonneg x t
    rw [sum_sq_sub] at h2
    simp only [List.length_cons, List.map_cons, List.sum_cons]
    push_cast
    nlinarith [h1, h2]

theorem var_pos (xs : List ℚ) (h2 : 2 ≤ xs.length) (hnd : xs.Nodup) :
    0 < (xs.length : ℚ) * (xs.map fun y => y ^ 2).sum - xs.sum ^ 2 := by
  cases xs with
  | nil => simp at h2
  | cons x t =>
    cases t with
    | nil => simp at h2
    | cons z t2 =>
      have hx_notin : x ∉ z :: t2 := (List.nodup_cons.mp hnd).1
      have hzx : z ≠ x := fun h => hx_notin (h ▸ List.mem_cons_self _ _)
      have hpos := sqd_pos x (z :: t2) z (List.mem_cons_self _ _) hzx
      have h1 := var_nonneg (z :: t2)
      rw [sum_sq_sub] at hpos
      simp only [List.length_cons, List.map_cons, List.sum_cons] at hpos h1 ⊢
      push_cast at hpos h1 ⊢
      nlinarith [h1, hpos]

theorem sums_linear (a b : ℚ) : ∀ p : List (Int × ℚ), (∀ q ∈ p, q.2 = a * q.1 + b) →
    (p.map fun q => q.2).sum = a * (p.map fun q => (q.1 : ℚ)).sum + b * p.length ∧
      (p.map fun q => (q.1 : ℚ) * q.2).sum =
        a * (p.map fun q => (q.1 : ℚ) ^ 2).sum + b * (p.map fun q => (q.1 : ℚ)).sum
  | [], _ => by simp
  | q :: t, h => by
    have ht := sums_linear a b t fun u hu => h u (List.mem_cons_of_mem _ hu)
    have hq : q.2 = a * q.1 + b := h q (List.mem_cons_self _ _)
    simp only [List.map_cons, List.sum_cons, List.length_cons]
    constructor
    · rw [ht.1, hq]
      push_cast
      ring
    · rw [ht.2, hq]
      ring

theorem olsSlope_linear (p : List (Int × ℚ)) (a b : ℚ)
    (hlin : ∀ q ∈ p, q.2 = a * q.1 + b)
    (hlen : 2 ≤ p.length)
    (hnd : (p.map fun q => q.1).Nodup) :
    olsSlope p = a := by
  have hcast : (p.map fun q => (q.1 : ℚ)) = (p.map fun q => q.1).map fun z : Int => (z : ℚ) := by
    rw [List.map_map]
    rfl
  have hxnd : (p.map fun q => (q.1 : ℚ)).Nodup := by
    rw [hcast]
    exact hnd.map Int.cast_injective
  have hD := var_pos (p.map fun q => (q.1 : ℚ)) (by simpa using hlen) hxnd
  have hD2 : 0 < (p.length : ℚ) * (p.map fun q => (q.1 : ℚ) ^ 2).sum -
      ((p.map fun q => (q.1 : ℚ)).sum) ^ 2 := by
    simpa [List.map_map, Function.comp] using hD
  rcases sums_linear a b p hlin with ⟨h1, h2⟩
  rw [olsSlope, h1, h2]
  have hnum : (p.length : ℚ) *
        (a * (p.map fun q => (q.1 : ℚ) ^ 2).sum + b * (p.map fun q => (q.1 : ℚ)).sum) -
      (p.map fun q => (q.1 : ℚ)).sum *
        (a * (p.map fun q => (q.1 : ℚ)).sum + b * p.length) =
      a * ((p.length : ℚ) * (p.map fun q => (q.1 : ℚ) ^ 2).sum -
        ((p.map fun q => (q.1 : ℚ)).sum) ^ 2) := by
    ring
  rw [hnum, mul_div_assoc, div_self (ne_of_gt hD2), mul_one]

/-- C5. For every indicator whose (year-sorted, duplicate-free) series has at
    least 5 observations, the time-series phase emits exactly one
    `<indicator>_trend_coefficient` observation; it is keyed to the series'
    latest year and carries the ordinary least-squares slope `olsSlope` of value
    against year; and for a perfectly linear series `value = a*year + b` that
    slope equals `a` exactly.  The separation hypothesis `hsep` rules out input
    indicator names that already look like derived trend names, which would make
    the source's accumulating loop read back its own output. -/
theorem c5_trend_coefficient (df : List Row) (ind : String) (last : Row)
    (hsep : ∀ m ∈ df.map (fun r => r.indicator_name),
      ∀ n ∈ df.map (fun r => r.indicator_name), m ≠ n ++ trend_suffix)
    (hkeys : df.Pairwise fun a b => key a ≠ key b)
    (h5 : 5 ≤ (seriesOf df ind).length)
    (hlast : (seriesOf df ind).getLast? = some last) :
    ((create_time_series_analysis df).countP fun r =>
        decide (r.indicator_name = ind ++ trend_suffix)) = 1 ∧
      (⟨"Bangladesh", "BGD", "TREND_" ++ strUpper ind, ind ++ trend_suffix, last.year,
        olsSlope ((seriesOf df ind).map fun r => (r.year, r.value))⟩ : Row) ∈
        create_time_series_analysis df ∧
      (∀ r ∈ seriesOf df ind, r.year ≤ last.year) ∧
      ∀ a b : ℚ, (∀ r ∈ seriesOf df ind, r.value = a * (r.year : ℚ) + b) →
        olsSlope ((seriesOf df ind).map fun r => (r.year, r.value)) = a := by
  have hne : seriesOf df ind ≠ [] := by
    intro h
    rw [h] at h5
    simp at h5
  obtain ⟨r0, hr0⟩ := List.exists_mem_of_ne_nil _ hne
  have hind_names : ind ∈ df.map fun r => r.indicator_name := by
    rcases mem_seriesOf.mp hr0 with ⟨hdf, hname⟩
    exact hname ▸ List.mem_map_of_mem _ hdf
  obtain ⟨last2, hlast2, htrend⟩ := trendRowFor_eq h5
  have hlast_eq : last2 = last := by
    rw [hlast2] at hlast
    exact Option.some.inj hlast
  subst hlast_eq
  rw [ts_eq df hsep]
  refine ⟨?_, ?_, ?_, ?_⟩
  · rw [List.countP_append]
    have hdfz : (df.countP fun r => decide (r.indicator_name = ind ++ trend_suffix)) = 0 := by
      rw [List.countP_eq_zero]
      intro r hr
      simp only [decide_eq_true_eq]
      intro hname
      exact hsep r.indicator_name (List.mem_map_of_mem _ hr) ind hind_names hname
    rw [hdfz, countP_trend_flatten df ind (uniqueNamesOf df) (uniqueFirst_nodup _)
      (mem_uniqueFirst.mpr hind_names), htrend]
    simp [List.countP_cons]
  · refine List.mem_append_right _ ?_
    have hcomp : trendRowFor df ind ∈ (uniqueNamesOf df).map fun i => trendRowFor df i :=
      List.mem_map_of_mem _ (mem_uniqueFirst.mpr hind_names)
    refine List.mem_flatten.mpr ⟨trendRowFor df ind, hcomp, ?_⟩
    rw [htrend]
    exact List.mem_singleton_self _
  · exact sorted_getLast_bound _ (seriesOf_sorted df ind) last2 hlast2
  · intro a b hlin
    refine olsSlope_linear _ a b ?_ ?_ ?_
    · intro q hq
      rcases List.mem_map.mp hq with ⟨r, hr, rfl⟩
      exact hlin r hr
    · rw [List.length_map]
      omega
    · rw [List.map_map]
      have hstrict := seriesOf_year_strict ind hkeys
      have hyne : (seriesOf df ind).Pairwise fun a b => a.year ≠ b.year :=
        hstrict.imp fun h => ne_of_lt h
      show ((seriesOf df ind).map fun r => r.year).Nodup
      rw [List.Nodup, List.pairwise_map]
      exact hyne

/-- Concrete five-point linear series (`value = 2*year + 1`) for the C5 witness. -/
def c5df : List Row :=
  [⟨"Bangladesh", "BGD", "SP.POP.TOTL", "population", 2000, 4001⟩,
   ⟨"Bangladesh", "BGD", "SP.POP.TOTL", "population", 2001, 4003⟩,
   ⟨"Bangladesh", "BGD", "SP.POP.TOTL", "population", 2002, 4005⟩,
   ⟨"Bangladesh", "BGD", "SP.POP.TOTL", "population", 2003, 4007⟩,
   ⟨"Bangladesh", "BGD", "SP.POP.TOTL", "population", 2004, 4009⟩]

/-- Latest row of the C5 witness series. -/
def c5last : Row := ⟨"Bangladesh", "BGD", "SP.POP.TOTL", "population", 2004, 4009⟩

/-- Witness for C5 at a concrete five-point series. -/
theorem c5_trend_coefficient_witness :
    ((∀ m ∈ c5df.map (fun r => r.indicator_name),
        ∀ n ∈ c5df.map (fun r => r.indicator_name), m ≠ n ++ trend_suffix) ∧
      (c5df.Pairwise fun a b => key a ≠ key b) ∧
      5 ≤ (seriesOf c5df "population").length ∧
      (seriesOf c5df "population").getLast? = some c5last) ∧
    (((create_time_series_analysis c5df).countP fun r =>
        decide (r.indicator_name = "population" ++ trend_suffix)) = 1 ∧
      (⟨"Bangladesh", "BGD", "TREND_" ++ strUpper "population",
        "population" ++ trend_suffix, c5last.year,
        olsSlope ((seriesOf c5df "population").map fun r => (r.year, r.value))⟩ : Row) ∈
        create_time_series_analysis c5df ∧
      (∀ r ∈ seriesOf c5df "population", r.year ≤ c5last.year) ∧
      ∀ a b : ℚ, (∀ r ∈ seriesOf c5df "population", r.value = a * (r.year : ℚ) + b) →
        olsSlope ((seriesOf c5df "population").map fun r => (r.year, r.value)) = a) :=
  ⟨⟨by decide, by decide, by decide, by decide⟩,
   c5_trend_coefficient c5df "population" c5last (by decide) (by decide) (by decide)
     (by decide)⟩

theorem lookupVal_append (df e : List Row) (n : String) (y : Int)
    (h : ∀ r ∈ e, r.indicator_name ≠ n) :
    lookupVal (df ++ e) n y = lookupVal df n y := by
  unfold lookupVal
  rw [find?_append_of_right_none _ e (fun r hr => by simp [h r hr]) df]

theorem lookupVal_some {df : List Row} {n : String} {y : Int} {v : ℚ}
    (h : lookupVal df n y = some v) :
    ∃ r ∈ df, r.indicator_name = n ∧ r.year = y ∧ r.value = v := by
  unfold lookupVal at h
  rcases hf : df.find? (fun r => decide (r.indicator_name = n) && decide (r.year = y)) with
    _ | r
  · rw [hf] at h
    simp at h
  · rw [hf] at h
    have hp := List.find?_some hf
    simp only [Bool.and_eq_true, decide_eq_true_eq] at hp
    have hm := List.mem_of_find?_eq_some hf
    simp only [Option.map_some', Option.some.injEq] at h
    exact ⟨r, hm, hp.1, hp.2, h⟩

theorem countP_congr_mem {α : Type} :
    ∀ (l : List α) (p q : α → Bool), (∀ a ∈ l, p a = q a) → l.countP p = l.countP q
  | [], _, _, _ => by simp
  | x :: t, p, q, h => by
    rw [List.countP_cons, List.countP_cons, h x (List.mem_cons_self _ _),
      countP_congr_mem t p q fun a ha => h a (List.mem_cons_of_mem _ ha)]

theorem countP_filterMap_year (f : Int → Option Row)
    (hf : ∀ y r, f y = some r → r.year = y) :
    ∀ ys : List Int, ys.Nodup → ∀ y : Int,
      ((ys.filterMap f).countP fun r => decide (r.year = y)) =
        if y ∈ ys ∧ (f y).isSome then 1 else 0
  | [], _, y => by simp
  | z :: t, hnd, y => by
    have htail := countP_filterMap_year f hf t (List.nodup_cons.mp hnd).2 y
    rw [List.filterMap_cons]
    rcases hz : f z with _ | r
    · rw [htail]
      by_cases hy : y = z
      · subst hy
        rw [if_neg (by simp [hz]), if_neg (by simp [hz])]
      · have : (y ∈ z :: t ∧ (f y).isSome) ↔ (y ∈ t ∧ (f y).isSome) := by
          simp [List.mem_cons, hy]
        rw [if_congr this rfl rfl]
    · have hry : r.year = z := hf z r hz
      rw [List.countP_cons, htail]
      by_cases hy : y = z
      · subst hy
        have hnotin : y ∉ t := (List.nodup_cons.mp hnd).1
        have h1 : (if y ∈ t ∧ (f y).isSome then (1 : Nat) else 0) = 0 := by
          rw [if_neg]
          rintro ⟨hc, _⟩
          exact hnotin hc
        have h2 : (if y ∈ y :: t ∧ (f y).isSome then (1 : Nat) else 0) = 1 := by
          rw [if_pos]
          exact ⟨List.mem_cons_self _ _, by rw [hz]; rfl⟩
        rw [h1, h2]
        simp [hry]
      · have hpr : (decide (r.year = y) : Bool) = false := by
          simp [hry, Ne.symm hy]
        have : (y ∈ t ∧ (f y).isSome) ↔ (y ∈ z :: t ∧ (f y).isSome) := by
          simp [List.mem_cons, hy]
        rw [hpr, if_congr this rfl rfl]
        simp

theorem uniqueYearsOf_nodup (df : List Row) : (uniqueYearsOf df).Nodup := by
  unfold uniqueYearsOf
  exact ((sortListBy_perm _ _).nodup_iff).mpr (uniqueFirst_nodup _)

theorem mem_uniqueYearsOf {df : List Row} {y : Int} :
    y ∈ uniqueYearsOf df ↔ y ∈ df.map fun r => r.year := by
  unfold uniqueYearsOf
  rw [(sortListBy_perm _ _).mem_iff, mem_uniqueFirst]

theorem countP_divRowsFor (df1 : List Row) (y : Int) :
    ((divRowsFor df1).countP fun r =>
        decide (r.indicator_name = "economic_diversification_index" ∧ r.year = y)) =
      if (lookupVal df1 "agriculture_pct_gdp" y).isSome ∧
          (lookupVal df1 "industry_pct_gdp" y).isSome then 1 else 0 := by
  have hstep : ((divRowsFor df1).countP fun r =>
      decide (r.indicator_name = "economic_diversification_index" ∧ r.year = y)) =
      (divRowsFor df1).countP fun r => decide (r.year = y) := by
    refine countP_congr_mem _ _ _ fun r hr => ?_
    simp [divRowsFor_name hr]
  rw [hstep]
  unfold divRowsFor
  have hf : ∀ (y0 : Int) (r : Row),
      (match lookupVal df1 "agriculture_pct_gdp" y0, lookupVal df1 "industry_pct_gdp" y0 with
        | some a, some i =>
            some (⟨"Bangladesh", "BGD", "CALC_ECON_DIV_IDX",
              "economic_diversification_index", y0, divIndexVal a i⟩ : Row)
        | _, _ => none) = some r → r.year = y0 := by
    intro y0 r h
    rcases hA : lookupVal df1 "agriculture_pct_gdp" y0 with _ | a <;>
      rcases hB : lookupVal df1 "industry_pct_gdp" y0 with _ | i <;>
        rw [hA, hB] at h <;> dsimp only at h
    · exact Option.noConfusion h
    · exact Option.noConfusion h
    · exact Option.noConfusion h
    · rw [← Option.some.inj h]
  rw [countP_filterMap_year _ hf (uniqueYearsOf df1) (uniqueYearsOf_nodup df1) y]
  rcases ha : lookupVal df1 "agriculture_pct_gdp" y with _ | a <;>
    rcases hi : lookupVal df1 "industry_pct_gdp" y with _ | i
  · rw [if_neg (by simp [ha]), if_neg (by simp [ha])]
  · rw [if_neg (by simp [ha]), if_neg (by simp [ha])]
  · rw [if_neg (by simp [ha, hi]), if_neg (by simp [hi])]
  · have hymem : y ∈ uniqueYearsOf df1 := by
      rcases lookupVal_some ha with ⟨r, hr, _, hy2, _⟩
      exact mem_uniqueYearsOf.mpr (hy2 ▸ List.mem_map_of_mem _ hr)
    rw [if_pos ⟨hymem, by simp [ha, hi]⟩, if_pos (by simp [ha, hi])]

theorem yoyAll_not_agri {df : List Row} {r : Row} (hr : r ∈ yoyAll df) :
    r.indicator_name ≠ "agriculture_pct_gdp" := by
  rcases yoyAll_name hr with h | h | h <;> rw [h] <;> decide

theorem yoyAll_not_industry {df : List Row} {r : Row} (hr : r ∈ yoyAll df) :
    r.indicator_name ≠ "industry_pct_gdp" := by
  rcases yoyAll_name hr with h | h | h <;> rw [h] <;> decide

theorem yoyAll_not_div {df : List Row} {r : Row} (hr : r ∈ yoyAll df) :
    r.indicator_name ≠ "economic_diversification_index" := by
  rcases yoyAll_name hr with h | h | h <;> rw [h] <;> decide

theorem divIndexVal_eq (a i : ℚ) :
    divIndexVal a i = (10000 - (a ^ 2 + i ^ 2 + (100 - a - i) ^ 2)) / 10000 := by
  unfold divIndexVal
  ring

theorem divIndexVal_range (a i : ℚ) (ha : 0 ≤ a) (hi : 0 ≤ i) (hsum : a + i ≤ 100) :
    0 ≤ divIndexVal a i ∧ divIndexVal a i < 1 := by
  have hs : 0 ≤ 100 - a - i := by linarith
  rw [divIndexVal_eq]
  constructor
  · apply div_nonneg _ (by norm_num)
    nlinarith [mul_nonneg ha hi, mul_nonneg ha hs, mul_nonneg hi hs]
  · rw [div_lt_one (by norm_num)]
    nlinarith [sq_nonneg (a - i), sq_nonneg (a - (100 - a - i)), sq_nonneg (i - (100 - a - i))]

/-- C4. An `economic_diversification_index` observation is emitted for exactly
    the years where both `agriculture_pct_gdp` and `industry_pct_gdp` are present;
    its value is `divIndexVal a i = 1 - ((a/100)^2 + (i/100)^2 + ((100-a-i)/100)^2)`;
    and for percentage inputs `0 ≤ a`, `0 ≤ i`, `a + i ≤ 100` the value lies in
    `[0, 1)`. -/
theorem c4_diversification (df : List Row) (y : Int)
    (hno : ∀ r ∈ df, r.indicator_name ≠ "economic_diversification_index") :
    ((create_features df).countP fun r =>
        decide (r.indicator_name = "economic_diversification_index" ∧ r.year = y)) =
      (if (lookupVal df "agriculture_pct_gdp" y).isSome ∧
          (lookupVal df "industry_pct_gdp" y).isSome then 1 else 0) ∧
    (∀ a i : ℚ, lookupVal df "agriculture_pct_gdp" y = some a →
      lookupVal df "industry_pct_gdp" y = some i →
      (⟨"Bangladesh", "BGD", "CALC_ECON_DIV_IDX", "economic_diversification_index", y,
        divIndexVal a i⟩ : Row) ∈ create_features df) ∧
    ∀ a i : ℚ, 0 ≤ a → 0 ≤ i → a + i ≤ 100 →
      0 ≤ divIndexVal a i ∧ divIndexVal a i < 1 := by
  have hLagri : lookupVal (df ++ yoyAll df) "agriculture_pct_gdp" y =
      lookupVal df "agriculture_pct_gdp" y :=
    lookupVal_append df (yoyAll df) _ y fun r hr => yoyAll_not_agri hr
  have hLind : lookupVal (df ++ yoyAll df) "industry_pct_gdp" y =
      lookupVal df "industry_pct_gdp" y :=
    lookupVal_append df (yoyAll df) _ y fun r hr => yoyAll_not_industry hr
  have hdfz : (df.countP fun r =>
      decide (r.indicator_name = "economic_diversification_index" ∧ r.year = y)) = 0 := by
    rw [List.countP_eq_zero]
    intro r hr
    simp only [decide_eq_true_eq, not_and]
    intro hname
    exact absurd hname (hno r hr)
  have hyoyz : ((yoyAll df).countP fun r =>
      decide (r.indicator_name = "economic_diversification_index" ∧ r.year = y)) = 0 := by
    rw [List.countP_eq_zero]
    intro r hr
    simp only [decide_eq_true_eq, not_and]
    intro hname
    exact absurd hname (yoyAll_not_div hr)
  refine ⟨?_, ?_, fun a i => divIndexVal_range a i⟩
  · rw [create_features_eq]
    by_cases hgate : (hasIndicator (df ++ yoyAll df) "agriculture_pct_gdp" &&
        hasIndicator (df ++ yoyAll df) "industry_pct_gdp") = true
    · rw [if_pos hgate, List.countP_append, List.countP_append, hdfz, hyoyz,
        countP_divRowsFor (df ++ yoyAll df) y, hLagri, hLind]
      by_cases hC : (lookupVal df "agriculture_pct_gdp" y).isSome ∧
          (lookupVal df "industry_pct_gdp" y).isSome
      · rw [if_pos hC]
      · rw [if_neg hC]
    · rw [if_neg hgate, List.countP_append, hdfz, hyoyz]
      have hCfalse : ¬((lookupVal df "agriculture_pct_gdp" y).isSome ∧
          (lookupVal df "industry_pct_gdp" y).isSome) := by
        rintro ⟨hA, hB⟩
        apply hgate
        rcases Option.isSome_iff_exists.mp hA with ⟨a, ha⟩
        rcases Option.isSome_iff_exists.mp hB with ⟨i, hi⟩
        rcases lookupVal_some ha with ⟨r1, hr1, hn1, _, _⟩
        rcases lookupVal_some hi with ⟨r2, hr2, hn2, _, _⟩
        rw [Bool.and_eq_true]
        constructor
        · exact List.any_eq_true.mpr ⟨r1, List.mem_append_left _ hr1, by simp [hn1]⟩
        · exact List.any_eq_true.mpr ⟨r2, List.mem_append_left _ hr2, by simp [hn2]⟩
      rw [if_neg hCfalse]
  · intro a i ha hi
    have hgate : (hasIndicator (df ++ yoyAll df) "agriculture_pct_gdp" &&
        hasIndicator (df ++ yoyAll df) "industry_pct_gdp") = true := by
      rcases lookupVal_some ha with ⟨r1, hr1, hn1, _, _⟩
      rcases lookupVal_some hi with ⟨r2, hr2, hn2, _, _⟩
      rw [Bool.and_eq_true]
      constructor
      · exact List.any_eq_true.mpr ⟨r1, List.mem_append_left _ hr1, by simp [hn1]⟩
      · exact List.any_eq_true.mpr ⟨r2, List.mem_append_left _ hr2, by simp [hn2]⟩
    rw [create_features_eq, if_pos hgate]
    refine List.mem_append_right _ ?_
    refine List.mem_filterMap.mpr ⟨y, ?_, ?_⟩
    · rcases lookupVal_some ha with ⟨r1, hr1, _, hy1, _⟩
      exact mem_uniqueYearsOf.mpr
        (hy1 ▸ List.mem_map_of_mem _ (List.mem_append_left _ hr1))
    · rw [hLagri, hLind, ha, hi]

/-- Concrete dataset with sector shares for the C4 witness. -/
def c4df : List Row :=
  [⟨"Bangladesh", "BGD", "NV.AGR.TOTL.ZS", "agriculture_pct_gdp", 2010, 20⟩,
   ⟨"Bangladesh", "BGD", "NV.IND.TOTL.ZS", "industry_pct_gdp", 2010, 35⟩,
   ⟨"Bangladesh", "BGD", "NV.AGR.TOTL.ZS", "agriculture_pct_gdp", 2011, 18⟩]

/-- Witness for C4 at a concrete dataset: a diversification row is emitted for
    2010 (both shares present) and its count matches the defining condition. -/
theorem c4_diversification_witness :
    (∀ r ∈ c4df, r.indicator_name ≠ "economic_diversification_index") ∧
    (((create_features c4df).countP fun r =>
        decide (r.indicator_name = "economic_diversification_index" ∧ r.year = 2010)) =
      (if (lookupVal c4df "agriculture_pct_gdp" 2010).isSome ∧
          (lookupVal c4df "industry_pct_gdp" 2010).isSome then 1 else 0) ∧
    (∀ a i : ℚ, lookupVal c4df "agriculture_pct_gdp" 2010 = some a →
      lookupVal c4df "industry_pct_gdp" 2010 = some i →
      (⟨"Bangladesh", "BGD", "CALC_ECON_DIV_IDX", "economic_diversification_index", 2010,
        divIndexVal a i⟩ : Row) ∈ create_features c4df) ∧
    ∀ a i : ℚ, 0 ≤ a → 0 ≤ i → a + i ≤ 100 →
      0 ≤ divIndexVal a i ∧ divIndexVal a i < 1) :=
  ⟨by decide, c4_diversification c4df 2010 (by decide)⟩

theorem key_standardize {s : Row} (h : strTrim s.indicator_name = s.indicator_name) :
    key (standardize s) = key s := by
  simp [key, standardize, h]

theorem dropNullValues_trim {raw : List RawRow}
    (htrim : ∀ t ∈ raw, strTrim t.indicator_name = t.indicator_name) :
    ∀ u ∈ dropNullValues raw, strTrim u.indicator_name = u.indicator_name := by
  intro u hu
  rcases mem_dropNullValues.mp hu with ⟨t, ht, v, _, rfl⟩
  exact htrim t ht

/-- Raw input on which the Clean phase violates post-clean key uniqueness: the
    two rows have different untrimmed indicator names (`"gdp "` and `"gdp"`), so
    duplicate dropping keeps both, and the later trim makes their keys equal. -/
def c1cex : List RawRow :=
  [⟨"Bangladesh", "BGD", "NY.GDP.PCAP.KD", "gdp ", 2000, some 1⟩,
   ⟨"Bangladesh", "BGD", "NY.GDP.PCAP.KD", "gdp", 2000, some 2⟩]

/-- C1 counterexample. `clean_data` on `c1cex` keeps two rows with the same
    `(indicator_name, year)` key `("gdp", 2000)`, because the source trims
    indicator names only after dropping duplicates; the claimed post-clean
    uniqueness invariant is false as stated. -/
theorem c1_counterexample :
    ((clean_data c1cex).countP fun r => decide (key r = ("gdp", 2000))) = 2 ∧
      ¬ (clean_data c1cex).Pairwise fun a b => key a ≠ key b := by
  refine ⟨by decide, by decide⟩

/-- C1 amended. Provided every raw `indicator_name` is already
    whitespace-trimmed (so that trimming cannot merge distinct keys), the Clean
    phase output (a) has pairwise distinct `(indicator_name, year)` keys, (b)
    contains only rows originating from a raw row with a non-null value (no-null
    invariant), (c) keeps, for each surviving key, exactly the first occurrence
    among the rows that survived the null drop, and (d) loses no key of the
    null-dropped input. -/
theorem c1_clean_invariants (raw : List RawRow)
    (htrim : ∀ t ∈ raw, strTrim t.indicator_name = t.indicator_name) :
    ((clean_data raw).Pairwise fun a b => key a ≠ key b) ∧
    (∀ r ∈ clean_data raw, ∃ t ∈ raw, t.value = some r.value ∧
      r.year = t.year ∧ r.indicator_name = t.indicator_name) ∧
    (∀ r ∈ clean_data raw, ∃ s, (dropNullValues raw).find?
        (fun u => decide (key u = key r)) = some s ∧ r = standardize s) ∧
    (∀ u ∈ dropNullValues raw, ∃ r ∈ clean_data raw, key r = key u) := by
  have hdtrim := dropNullValues_trim htrim
  have hperm : (clean_data raw).Perm
      ((dedupFirst (dropNullValues raw)).map standardize) := sortListBy_perm _ _
  have hddtrim : ∀ s ∈ dedupFirst (dropNullValues raw),
      strTrim s.indicator_name = s.indicator_name :=
    fun s hs => hdtrim s (dedupFirst_subset hs)
  refine ⟨?_, ?_, ?_, ?_⟩
  · refine (hperm.pairwise_iff fun h => Ne.symm h).mpr ?_
    rw [List.pairwise_map]
    refine List.Pairwise.imp_of_mem ?_ (dedupFirst_pairwise (dropNullValues raw))
    intro a b ha hb hne
    rw [key_standardize (hddtrim a ha), key_standardize (hddtrim b hb)]
    exact hne
  · intro r hr
    rcases List.mem_map.mp (hperm.mem_iff.mp hr) with ⟨s, hs, rfl⟩
    rcases mem_dropNullValues.mp (dedupFirst_subset hs) with ⟨t, ht, v, hv, rfl⟩
    refine ⟨t, ht, hv, rfl, ?_⟩
    exact hdtrim _ (dedupFirst_subset hs)
  · intro r hr
    rcases List.mem_map.mp (hperm.mem_iff.mp hr) with ⟨s, hs, rfl⟩
    have hks : key (standardize s) = key s := key_standardize (hddtrim s hs)
    refine ⟨s, ?_, rfl⟩
    simp only [hks]
    exact dedupFirstAux_find? [] (dropNullValues raw) s hs
  · intro u hu
    rcases dedupFirstAux_complete [] (dropNullValues raw) u hu (by simp)
      with ⟨s, hs, hks⟩
    refine ⟨standardize s, ?_, ?_⟩
    · exact hperm.mem_iff.mpr (List.mem_map_of_mem _ hs)
    · rw [key_standardize (hddtrim s hs), hks]

/-- Raw input (with a null value and a duplicate key) for the C1 witness. -/
def c1wraw : List RawRow :=
  [⟨" Bangladesh", "BD", "NY.GDP.PCAP.KD", "gdp_per_capita", 2000, some 3⟩,
   ⟨"Bangladesh", "BGD", "NY.GDP.PCAP.KD", "gdp_per_capita", 2000, some 4⟩,
   ⟨"Bangladesh", "BGD", "SP.POP.TOTL", "population", 2001, none⟩]

/-- Witness for the amended C1 on a concrete raw table. -/
theorem c1_clean_invariants_witness :
    (∀ t ∈ c1wraw, strTrim t.indicator_name = t.indicator_name) ∧
    (((clean_data c1wraw).Pairwise fun a b => key a ≠ key b) ∧
      (∀ r ∈ clean_data c1wraw, ∃ t ∈ c1wraw, t.value = some r.value ∧
        r.year = t.year ∧ r.indicator_name = t.indicator_name) ∧
      (∀ r ∈ clean_data c1wraw, ∃ s, (dropNullValues c1wraw).find?
          (fun u => decide (key u = key r)) = some s ∧ r = standardize s) ∧
      (∀ u ∈ dropNullValues c1wraw, ∃ r ∈ clean_data c1wraw, key r = key u)) :=
  ⟨by decide, c1_clean_invariants c1wraw (by decide)⟩

/-- The raw input of the spec's end-to-end scenario: `gdp_per_capita` values
    `[100, 110, 121]` at years `[2000, 2001, 2002]`. -/
def c3raw : List RawRow :=
  [⟨"Bangladesh", "BGD", "NY.GDP.PCAP.KD", "gdp_per_capita", 2000, some 100⟩,
   ⟨"Bangladesh", "BGD", "NY.GDP.PCAP.KD", "gdp_per_capita", 2001, some 110⟩,
   ⟨"Bangladesh", "BGD", "NY.GDP.PCAP.KD", "gdp_per_capita", 2002, some 121⟩]

/-- The fully enriched dataset the transform derives from `c3raw`. -/
def c3proc : List Row := create_time_series_analysis (create_features (clean_data c3raw))

unseal Rat.mul Rat.add Rat.sub Rat.inv in
/-- C3 counterexample. On the spec's end-to-end input, the transform emits
    no `gdp_per_capita_trend_coefficient` record at all — the series has only 3
    observations and the time-series phase requires at least 5 — so the claimed
    trend record `(2002, ≈10.5)` does not exist. -/
theorem c3_counterexample :
    (c3proc.countP fun r =>
      decide (r.indicator_name = "gdp_per_capita_trend_coefficient")) = 0 := by
  decide

unseal Rat.mul Rat.add Rat.sub Rat.inv in
/-- C3 amended. The transform on the scenario input produces exactly one
    `gdp_per_capita_yoy_growth_pct` record `(2001, 10)` and one `(2002, 10)`;
    it emits no trend-coefficient record because the series has only 3 < 5
    observations; had the slope been computed, `olsSlope` on the series is
    exactly `21/2 = 10.5`. -/
theorem c3_amended :
    (c3proc.countP fun r =>
        decide (r.indicator_name = "gdp_per_capita_yoy_growth_pct" ∧
          r.year = 2001 ∧ r.value = 10)) = 1 ∧
    (c3proc.countP fun r =>
        decide (r.indicator_name = "gdp_per_capita_yoy_growth_pct" ∧
          r.year = 2002 ∧ r.value = 10)) = 1 ∧
    (seriesOf (clean_data c3raw) "gdp_per_capita").length = 3 ∧
    olsSlope ((seriesOf (clean_data c3raw) "gdp_per_capita").map
      fun r => (r.year, r.value)) = 21 / 2 := by
  refine ⟨by decide, by decide, by decide, by decide⟩

theorem lookupVal_unique : ∀ (df : List Row) (n : String) (y : Int) (r : Row),
    df.Pairwise (fun a b => key a ≠ key b) → r ∈ df → r.indicator_name = n → r.year = y →
    lookupVal df n y = some r.value
  | [], _, _, r, _, hr, _, _ => by simp at hr
  | x :: t, n, y, r, hp, hr, hn, hy => by
    by_cases hx : x.indicator_name = n ∧ x.year = y
    · unfold lookupVal
      rw [List.find?_cons_of_pos _ (by simp [hx.1, hx.2])]
      rcases List.mem_cons.mp hr with heq | hrt
      · simp [heq]
      · exfalso
        refine (List.pairwise_cons.mp hp).1 r hrt ?_
        simp [key, hx.1, hx.2, hn, hy]
    · have hrt : r ∈ t := by
        rcases List.mem_cons.mp hr with heq | hrt
        · exact absurd ⟨heq ▸ hn, heq ▸ hy⟩ hx
        · exact hrt
      have hstep : lookupVal (x :: t) n y = lookupVal t n y := by
        unfold lookupVal
        rw [List.find?_cons_of_neg _ (by simpa using fun h1 h2 => hx ⟨h1, h2⟩)]
      rw [hstep]
      exact lookupVal_unique t n y r (List.pairwise_cons.mp hp).2 hrt hn hy

/-- C6. Melting the wide pivot back to long format yields exactly the triples of
    the long-format input: membership in `meltWide` coincides with the existence
    of a matching observation, and a missing indicator-by-year combination gives
    an empty pivot cell (`none`), never a zero. -/
theorem c6_pivot_roundtrip (df : List Row)
    (hkeys : df.Pairwise fun a b => key a ≠ key b) :
    (∀ (y : Int) (n : String) (v : ℚ),
      (y, n, v) ∈ meltWide df ↔ ∃ r ∈ df, r.year = y ∧ r.indicator_name = n ∧ r.value = v) ∧
    ∀ (y : Int) (n : String),
      (∀ r ∈ df, ¬(r.indicator_name = n ∧ r.year = y)) → lookupVal df n y = none := by
  constructor
  · intro y n v
    constructor
    · intro hm
      unfold meltWide at hm
      rcases List.mem_flatten.mp hm with ⟨comp, hcomp, hvcomp⟩
      rcases List.mem_map.mp hcomp with ⟨y2, _, rfl⟩
      rcases List.mem_filterMap.mp hvcomp with ⟨n2, _, hfn⟩
      rcases hL : lookupVal df n2 y2 with _ | v2 <;> rw [hL] at hfn
      · simp at hfn
      · simp only [Option.map_some', Option.some.injEq, Prod.mk.injEq] at hfn
        rcases hfn with ⟨rfl, rfl, rfl⟩
        rcases lookupVal_some hL with ⟨r, hr, hrn, hry, hrv⟩
        exact ⟨r, hr, hry, hrn, hrv⟩
    · rintro ⟨r, hr, hy, hn, hv⟩
      unfold meltWide
      refine List.mem_flatten.mpr
        ⟨(uniqueNamesOf df).filterMap fun ind =>
          (lookupVal df ind y).map fun v => (y, ind, v), ?_, ?_⟩
      · refine List.mem_map.mpr ⟨y, ?_, rfl⟩
        exact mem_uniqueYearsOf.mpr (hy ▸ List.mem_map_of_mem _ hr)
      · refine List.mem_filterMap.mpr ⟨n, ?_, ?_⟩
        · exact mem_uniqueFirst.mpr (hn ▸ List.mem_map_of_mem _ hr)
        · rw [lookupVal_unique df n y r hkeys hr hn hy, hv]
          rfl
  · intro y n h
    unfold lookupVal
    rw [Option.map_eq_none', List.find?_eq_none]
    intro x hx
    simp only [Bool.and_eq_true, decide_eq_true_eq, not_and]
    intro h1 h2
    exact h x hx ⟨h1, h2⟩

/-- Concrete long-format dataset for the C6 witness. -/
def c6df : List Row :=
  [⟨"Bangladesh", "BGD", "NY.GDP.PCAP.KD", "gdp_per_capita", 2000, 100⟩,
   ⟨"Bangladesh", "BGD", "SP.POP.TOTL", "population", 2001, 7⟩]

/-- Witness for C6 at a concrete dataset with a missing indicator-year cell. -/
theorem c6_pivot_roundtrip_witness :
    (c6df.Pairwise fun a b => key a ≠ key b) ∧
    ((∀ (y : Int) (n : String) (v : ℚ),
        (y, n, v) ∈ meltWide c6df ↔
          ∃ r ∈ c6df, r.year = y ∧ r.indicator_name = n ∧ r.value = v) ∧
      ∀ (y : Int) (n : String),
        (∀ r ∈ c6df, ¬(r.indicator_name = n ∧ r.year = y)) →
          lookupVal c6df n y = none) :=
  ⟨by decide, c6_pivot_roundtrip c6df (by decide)⟩

theorem countP_key_split : ∀ (l : List Row) (k : String × Int),
    (l.countP fun u => decide (key u = k)) + (l.countP fun u => decide (key u ≠ k)) =
      l.length
  | [], _ => rfl
  | x :: t, k => by
    have ht := countP_key_split t k
    rw [List.countP_cons, List.countP_cons]
    by_cases hx : key x = k
    · have hd1 : (decide (key x = k)) = true := by simpa using hx
      have hd2 : (decide (key x ≠ k)) = false := by simp [hx]
      have hif1 : (if (true : Bool) = true then (1 : Nat) else 0) = 1 := rfl
      have hif0 : (if (false : Bool) = true then (1 : Nat) else 0) = 0 := rfl
      rw [hd1, hd2, hif1, hif0, List.length_cons]
      omega
    · have hd1 : (decide (key x = k)) = false := by simpa using hx
      have hd2 : (decide (key x ≠ k)) = true := by simp [hx]
      have hif1 : (if (true : Bool) = true then (1 : Nat) else 0) = 1 := rfl
      have hif0 : (if (false : Bool) = true then (1 : Nat) else 0) = 0 := rfl
      rw [hd1, hd2, hif1, hif0, List.length_cons]
      omega

theorem foldl_insertOrReplace_length : ∀ (df acc : List Row),
    df.Pairwise (fun a b => key a ≠ key b) →
    (∀ r ∈ df, ∀ u ∈ acc, key u ≠ key r) →
    (df.foldl insertOrReplace acc).length = acc.length + df.length
  | [], acc, _, _ => by simp
  | x :: t, acc, hp, hdisj => by
    rw [List.foldl_cons]
    have hfull : insertOrReplace acc x = acc ++ [x] := by
      unfold insertOrReplace
      congr 1
      rw [List.filter_eq_self]
      intro u hu
      simpa using hdisj x (List.mem_cons_self _ _) u hu
    have hnew : ∀ r ∈ t, ∀ u ∈ acc ++ [x], key u ≠ key r := by
      intro r hr u hu
      rcases List.mem_append.mp hu with hu | hu
      · exact hdisj r (List.mem_cons_of_mem _ hr) u hu
      · rcases List.mem_singleton.mp hu with rfl
        exact (List.pairwise_cons.mp hp).1 r hr
    rw [hfull, foldl_insertOrReplace_length t (acc ++ [x])
      (List.pairwise_cons.mp hp).2 hnew]
    simp only [List.length_append, List.length_cons, List.length_nil]
    omega

/-- C7. Loading an N-row long-format table with pairwise-distinct
    `(indicator_name, year)` keys leaves exactly N fact rows; the load clears the
    fact table first, so the result is independent of the prior table contents;
    and `INSERT OR REPLACE` of a row whose key already occurs (exactly once, the
    table invariant) replaces the old row — same length, still exactly one row
    with that key, and the new row present. -/
theorem c7_warehouse_load (tbl df tbl2 : List Row) (r : Row)
    (hdf : df.Pairwise fun a b => key a ≠ key b)
    (hone : (tbl2.countP fun u => decide (key u = key r)) = 1) :
    (load_processed_data tbl df).length = df.length ∧
    (∀ tbl3, load_processed_data tbl3 df = load_processed_data tbl df) ∧
    (insertOrReplace tbl2 r).length = tbl2.length ∧
    ((insertOrReplace tbl2 r).countP fun u => decide (key u = key r)) = 1 ∧
    r ∈ insertOrReplace tbl2 r := by
  refine ⟨?_, fun tbl3 => rfl, ?_, ?_, ?_⟩
  · unfold load_processed_data deleteAllRows
    rw [foldl_insertOrReplace_length df [] hdf (by simp)]
    simp
  · unfold insertOrReplace
    rw [List.length_append]
    have hsplit := countP_key_split tbl2 (key r)
    have hfl : (tbl2.filter fun t => decide (key t ≠ key r)).length =
        tbl2.countP fun t => decide (key t ≠ key r) :=
      (List.countP_eq_length_filter _ _).symm
    have h1 : ([r] : List Row).length = 1 := rfl
    rw [hfl, h1]
    omega
  · unfold insertOrReplace
    rw [List.countP_append]
    have hfz : ((tbl2.filter fun t => decide (key t ≠ key r)).countP
        fun u => decide (key u = key r)) = 0 := by
      rw [List.countP_eq_zero]
      intro u hu
      have := List.of_mem_filter hu
      simpa using this
    rw [hfz]
    simp
  · unfold insertOrReplace
    exact List.mem_append_right _ (List.mem_singleton_self _)

/-- Fact rows already in the warehouse for the C7 witness. -/
def c7tbl : List Row :=
  [⟨"Bangladesh", "BGD", "SP.POP.TOTL", "population", 2001, 6⟩]

/-- Long-format rows to load for the C7 witness. -/
def c7df : List Row :=
  [⟨"Bangladesh", "BGD", "SP.POP.TOTL", "population", 2000, 5⟩,
   ⟨"Bangladesh", "BGD", "SP.POP.TOTL", "population", 2001, 7⟩]

/-- Replacement row (same key as the existing `c7tbl` row) for the C7 witness. -/
def c7r : Row := ⟨"Bangladesh", "BGD", "SP.POP.TOTL", "population", 2001, 9⟩

/-- Witness for C7 at concrete tables. -/
theorem c7_warehouse_load_witness :
    ((c7df.Pairwise fun a b => key a ≠ key b) ∧
      (c7tbl.countP fun u => decide (key u = key c7r)) = 1) ∧
    ((load_processed_data c7tbl c7df).length = c7df.length ∧
      (∀ tbl3, load_processed_data tbl3 c7df = load_processed_data c7tbl c7df) ∧
      (insertOrReplace c7tbl c7r).length = c7tbl.length ∧
      ((insertOrReplace c7tbl c7r).countP fun u => decide (key u = key c7r)) = 1 ∧
      c7r ∈ insertOrReplace c7tbl c7r) :=
  ⟨⟨by decide, by decide⟩, c7_warehouse_load c7tbl c7df c7tbl c7r (by decide) (by decide)⟩

/-- Discriminator for the outcome of a phase that can raise. -/
def isErrorExcept {ε α : Type} : Except ε α → Bool
  | Except.error _ => true
  | Except.ok _ => false

/-- C8. The Validate phase fails exactly when a required column
    (`country_name, indicator_name, year, value`) is absent from the loaded raw
    table; every other quality finding (null ratio, duplicate keys, year range)
    is computed into the report and never makes the phase fail. -/
theorem c8_validate_iff (t : RawTable) :
    isErrorExcept (validate_raw_data t) = true ↔ ∃ c ∈ required_cols, c ∉ t.cols := by
  unfold validate_raw_data
  by_cases h : (required_cols.filter fun c => decide (c ∉ t.cols)).isEmpty = true
  · rw [if_pos h]
    simp only [isErrorExcept]
    constructor
    · intro hfalse
      exact absurd hfalse (by simp)
    · rintro ⟨c, hc, hnotin⟩
      exfalso
      rw [List.isEmpty_iff] at h
      have hcf : c ∈ required_cols.filter fun c => decide (c ∉ t.cols) :=
        List.mem_filter.mpr ⟨hc, by simpa using hnotin⟩
      rw [h] at hcf
      simp at hcf
  · rw [if_neg h]
    simp only [isErrorExcept]
    constructor
    · intro _
      obtain ⟨c, hc⟩ := List.exists_mem_of_ne_nil _
        (fun heq => h (List.isEmpty_iff.mpr heq))
      rcases List.mem_filter.mp hc with ⟨hcr, hcd⟩
      exact ⟨c, hcr, by simpa using hcd⟩
    · intro _
      trivial

/-- C9. When the raw input artifact is absent, the Load phase fails with
    `MissingInputError` (spec taxonomy; the source prints a file-not-found
    message and returns False), the run reports failure having executed only the
    Load phase — so validate, clean, feature derivation, time-series analysis
    and persist never run — and no output artifact is produced. -/
theorem c9_missing_input :
    run_transformation none =
      { executed := [Phase.load], outputs := none, ok := false } ∧
    load_raw_data (none : Option RawTable) =
      Except.error TransformError.MissingInputError :=
  ⟨rfl, rfl⟩

theorem summary_null_count_zero (l : List Row) :
    ∀ rec ∈ generate_summary_statistics l, rec.null_count = 0 := by
  intro rec hrec
  rcases List.mem_map.mp hrec with ⟨ind, _, rfl⟩
  simp only
  rw [List.countP_eq_zero]
  intro u hu
  rcases List.mem_map.mp hu with ⟨r, _, rfl⟩
  simp [rowToRaw]

/-- C10. Every summary record produced by a complete transform run has
    `null_count = 0`: the Clean phase admits only non-null values and every
    later phase appends observations carrying a value. -/
theorem c10_summary_no_nulls (t : RawTable) :
    ((run_transformation (some t)).outputs.elim true fun o =>
      o.summary_stats.all fun rec => rec.null_count == 0) = true := by
  unfold run_transformation load_raw_data
  dsimp only
  rcases hv : validate_raw_data t with e | rep
  · rfl
  · show ((save_processed_data (create_time_series_analysis
        (create_features (clean_data t.rows)))).summary_stats.all
      fun rec => rec.null_count == 0) = true
    rw [List.all_eq_true]
    intro rec hrec
    have hz := summary_null_count_zero
      (create_time_series_analysis (create_features (clean_data t.rows))) rec hrec
    simp [hz]

end BdEtl
